import Mathlib

set_option maxRecDepth 40000

/-!
Verification of the RayCast3D fixed-point rendering engine.

This file gives a shallow embedding, in Lean, of the numeric core
(utils/fixed.c), the camera module (camera.c), the raycaster DDA
(graphics.c, CastRays), the sprite engine (sprites.c), the render-buffer
pixel writes (buffer.c) and the top-level frame function (raycast3d.c),
and proves the behavioural properties claimed in the specification.

Conventions of the embedding:
- The C type fixed_t (int32_t, Q16.16) is modelled as Int; wherever the C
  code narrows a wider intermediate back to int32_t (the casts inside
  fixed_mul and fixed_div), the truncation is made explicit with toInt32.
- An arithmetic right shift of a (possibly wider) signed intermediate by a
  positive constant is floor division, written with / (Int.ediv).
- C division of run-time signed operands truncates toward zero and is
  written Int.tdiv; where the C operands are provably non-negative the
  embedding uses / (ediv), which agrees with C there.
- Bit masking with an all-ones low mask (x & 0xFFFF) is x % 65536 (emod).
- The C while-loop normalisation of an angle into [0, 2*pi) is % 411775.
- Global mutable state (camera, Z-buffer, render buffers, sprite table)
  is passed explicitly; buffers are functions from linear index to the
  stored 16-bit value, the Z-buffer is a function from screen column.
-/

/-- Truncation of a signed integer to int32, i.e. the effect of the C casts
(fixed_t)(...) applied to a 64-bit intermediate (two's-complement wrap). -/
def toInt32 (x : Int) : Int := (x + 2147483648) % 4294967296 - 2147483648

/-- Value of a C int8_t after assigning an int expression: reduction
modulo 2^8 into [-128, 128). -/
def toInt8 (x : Int) : Int := (x + 128) % 256 - 128

/-- FIXED_ONE: 1.0 in Q16.16. -/
def FIXED_ONE : Int := 65536

/-- FIXED_LARGE: maximum positive int32, the "very large value" sentinel. -/
def FIXED_LARGE : Int := 2147483647

/-- fixed_mul from fixed.h: (fixed_t)(((int64_t)a * b) >> 16).
The 64-bit product is exact; the arithmetic shift is floor division by
65536 and the final cast to fixed_t is toInt32. -/
def fixed_mul (a b : Int) : Int := toInt32 (a * b / 65536)

/-- fixed_div from fixed.h: (fixed_t)(((int64_t)a << 16) / b).
The shifted dividend is exact in 64 bits; C division truncates toward
zero (Int.tdiv) and the result is cast back to fixed_t. -/
def fixed_div (a b : Int) : Int := toInt32 (Int.tdiv (a * 65536) b)

/-- fixed_abs from fixed.h: (x < 0) ? -x : x. -/
def fixed_abs (x : Int) : Int := if x < 0 then -x else x

/-- sin_table from fixed.c: 256 Q16.16 samples of one quadrant of sine. -/
def sin_table : Array Int := #[
    0, 402, 804, 1206, 1608, 2010, 2412, 2814,
    3216, 3617, 4019, 4420, 4821, 5222, 5623, 6023,
    6424, 6824, 7224, 7623, 8022, 8421, 8820, 9218,
    9616, 10014, 10411, 10808, 11204, 11600, 11996, 12391,
    12785, 13180, 13573, 13966, 14359, 14751, 15143, 15534,
    15924, 16314, 16703, 17091, 17479, 17867, 18253, 18639,
    19024, 19409, 19792, 20175, 20557, 20939, 21320, 21699,
    22078, 22457, 22834, 23210, 23586, 23961, 24335, 24708,
    25080, 25451, 25821, 26190, 26558, 26925, 27291, 27656,
    28020, 28383, 28745, 29106, 29466, 29824, 30182, 30538,
    30893, 31248, 31600, 31952, 32303, 32652, 33000, 33347,
    33692, 34037, 34380, 34721, 35062, 35401, 35738, 36075,
    36410, 36744, 37076, 37407, 37736, 38064, 38391, 38716,
    39040, 39362, 39683, 40002, 40320, 40636, 40951, 41264,
    41576, 41886, 42194, 42501, 42806, 43110, 43412, 43713,
    44011, 44308, 44604, 44898, 45190, 45480, 45769, 46056,
    46341, 46624, 46906, 47186, 47464, 47741, 48015, 48288,
    48559, 48828, 49095, 49361, 49624, 49886, 50146, 50404,
    50660, 50914, 51166, 51417, 51665, 51911, 52156, 52398,
    52639, 52878, 53114, 53349, 53581, 53812, 54040, 54267,
    54491, 54714, 54934, 55152, 55368, 55582, 55794, 56004,
    56212, 56418, 56621, 56823, 57022, 57219, 57414, 57607,
    57798, 57986, 58172, 58356, 58538, 58718, 58896, 59071,
    59244, 59415, 59583, 59750, 59914, 60075, 60235, 60392,
    60547, 60700, 60851, 60999, 61145, 61288, 61429, 61568,
    61705, 61839, 61971, 62101, 62228, 62353, 62476, 62596,
    62714, 62830, 62943, 63054, 63162, 63268, 63372, 63473,
    63572, 63668, 63763, 63854, 63944, 64031, 64115, 64197,
    64277, 64354, 64429, 64501, 64571, 64639, 64704, 64766,
    64827, 64884, 64940, 64993, 65043, 65091, 65137, 65180,
    65220, 65259, 65294, 65328, 65358, 65387, 65413, 65436,
    65457, 65476, 65492, 65505, 65516, 65525, 65531, 65535]

/-- recip_table from fixed.c: 256 Q16.16 reciprocals spanning 0.25 to 4.0. -/
def recip_table : Array Int := #[
    262144, 259553, 257018, 254538, 252110, 249734, 247407, 245129,
    242897, 240712, 238570, 236472, 234416, 232401, 230425, 228489,
    226590, 224728, 222901, 221110, 219352, 217628, 215936, 214276,
    212647, 211048, 209479, 207939, 206427, 204943, 203486, 202055,
    200651, 199271, 197917, 196586, 195279, 193996, 192734, 191495,
    190278, 189082, 187907, 186753, 185618, 184503, 183407, 182330,
    181271, 180231, 179207, 178201, 177212, 176239, 175283, 174342,
    173417, 172507, 171612, 170731, 169865, 169012, 168173, 167348,
    166535, 165736, 164949, 164174, 163412, 162661, 161922, 161195,
    160479, 159774, 159079, 158396, 157722, 157059, 156406, 155763,
    155129, 154505, 153890, 153285, 152688, 152100, 151521, 150950,
    150387, 149833, 149286, 148748, 148217, 147693, 147177, 146668,
    146166, 145671, 145183, 144702, 144227, 143759, 143297, 142841,
    142391, 141948, 141510, 141078, 140652, 140231, 139816, 139406,
    139001, 138602, 138207, 137818, 137433, 137053, 136678, 136308,
    135942, 135580, 135223, 134870, 134521, 134177, 133837, 133500,
    133168, 132839, 132514, 132193, 131876, 131562, 131252, 130945,
    130642, 130342, 130046, 129753, 129463, 129176, 128893, 128612,
    128335, 128061, 127789, 127521, 127255, 126993, 126733, 126476,
    126221, 125970, 125721, 125474, 125230, 124989, 124750, 124514,
    124280, 124049, 123820, 123593, 123369, 123147, 122927, 122710,
    122495, 122282, 122071, 121862, 121656, 121451, 121249, 121048,
    120850, 120654, 120459, 120267, 120076, 119888, 119701, 119516,
    119333, 119152, 118972, 118795, 118619, 118445, 118272, 118102,
    117933, 117766, 117600, 117436, 117274, 117113, 116954, 116796,
    116640, 116486, 116333, 116181, 116031, 115883, 115736, 115590,
    115446, 115303, 115162, 115022, 114883, 114746, 114610, 114475,
    114342, 114210, 114079, 113950, 113822, 113695, 113569, 113445,
    113322, 113200, 113079, 112959, 112841, 112724, 112608, 112493,
    112379, 112266, 112155, 112044, 111935, 111826, 111719, 111613,
    111508, 111404, 111300, 111198, 111097, 110997, 110898, 110800,
    110703, 110607, 110511, 110417, 110324, 110231, 110140, 110049]

/-- Table lookup: sin_table[i] for an in-range index (reads are clamped
into range before every access in the C code). -/
def tab (i : Nat) : Int := sin_table.getD i 0

/-- Quadrant selection in fixed_sin: (angle * 4) / FIXED_2PI on the
already-normalised (hence non-negative) angle; C truncating division on
non-negative operands is floor division. -/
def sinQuadrant (a : Int) : Int := a * 4 / 411775

/-- Phase within the quadrant: angle - quadrant * FIXED_PI_HALF. -/
def sinPhase (a : Int) : Int := a - sinQuadrant a * 102944

/-- Table index in fixed_sin: (phase * (SIN_TABLE_SIZE - 1)) / FIXED_PI_HALF
followed by the two clamping ifs of the C code. -/
def sinIndex (a : Int) : Int :=
  let i0 := sinPhase a * 255 / 102944
  if i0 < 0 then 0 else if 256 ≤ i0 then 255 else i0

/-- fixed_sin from fixed.c.  The two while-loops normalise the angle into
[0, FIXED_2PI) which is exactly % 411775; then quadrant folding selects a
(possibly mirrored, possibly negated) entry of the quadrant table. -/
def fixed_sin (angle : Int) : Int :=
  let a := angle % 411775
  let q := sinQuadrant a
  let i := (sinIndex a).toNat
  if q = 0 then tab i
  else if q = 1 then tab (255 - i)
  else if q = 2 then -tab i
  else -tab (255 - i)

/-- fixed_cos from fixed.c: cos(x) = sin(x + PI/2).  The C addition of the
two int32 values angle and FIXED_PI_HALF wraps on overflow, which happens
for angle > 2147380703; the wrap is kept via toInt32. -/
def fixed_cos (angle : Int) : Int := fixed_sin (toInt32 (angle + 102944))

/-- fixed_recip from fixed.c: table lookup for 0.25..4.0, scaled lookup for
4.0..32.0, fixed_div fallback for very small or very large magnitudes. -/
def fixed_recip (x : Int) : Int :=
  if x = 0 then FIXED_LARGE
  else
    let neg := x < 0
    let x := if neg then -x else x
    if x < 16384 then
      let r := fixed_div FIXED_ONE x
      if neg then -r else r
    else if 262144 < x then
      if x ≤ 2097152 then
        let scaled := x / 8
        let i0 := (scaled - 16384) * 255 / 245760
        let i : Int := if i0 < 0 then 0 else if 256 ≤ i0 then 255 else i0
        let r := recip_table.getD i.toNat 0 / 8
        if neg then -r else r
      else
        let r := fixed_div FIXED_ONE x
        if neg then -r else r
    else
      let i0 := (x - 16384) * 255 / 245760
      let i : Int := if i0 < 0 then 0 else if 256 ≤ i0 then 255 else i0
      let r := recip_table.getD i.toNat 0
      if neg then -r else r

/-- fixed_recip_large from fixed.c: signed FIXED_LARGE sentinel for
|x| < 256, otherwise a plain fixed_div. -/
def fixed_recip_large (x : Int) : Int :=
  if x = 0 then FIXED_LARGE
  else if -256 < x ∧ x < 256 then (if 0 ≤ x then FIXED_LARGE else -FIXED_LARGE)
  else fixed_div FIXED_ONE x

/-- One Newton-Raphson iteration of fixed_sqrt:
guess = (guess + fixed_div(x, guess)) >> 1. -/
def sqrtStep (x g : Int) : Int := (g + fixed_div x g) / 2

/-- fixed_sqrt from fixed.c: coarse bit-range seed then four Newton-Raphson
iterations. -/
def fixed_sqrt (x : Int) : Int :=
  if x ≤ 0 then 0
  else
    let g0 : Int :=
      if 1048576 ≤ x then 262144
      else if 262144 ≤ x then 131072
      else if 65536 ≤ x then 65536
      else if 16384 ≤ x then 32768
      else 16384
    sqrtStep x (sqrtStep x (sqrtStep x (sqrtStep x g0)))

/-- Balanced-recursion range checker: chkRange p f lo hi decides
whether p holds on every natural in [lo, hi), splitting the interval so
that the recursion depth stays logarithmic (fuel f bounds the depth). -/
def chkRange (p : Nat → Bool) : Nat → Nat → Nat → Bool
  | 0, lo, hi => decide (hi ≤ lo)
  | f+1, lo, hi =>
    if hi ≤ lo then true
    else if hi = lo + 1 then p lo
    else chkRange p f lo ((lo + hi) / 2) && chkRange p f ((lo + hi) / 2) hi

/-- Per-index certificate for the trigonometric identity: both the aligned
table pair (i, 255-i) and the off-by-one pair (i+1, 255-i) produced by the
quadrant-3 wrap keep sin^2+cos^2 within 404 of FIXED_ONE. -/
def sinSqPairOK (i : Nat) : Bool :=
  let a := fixed_mul (tab i) (tab i) + fixed_mul (tab (255 - i)) (tab (255 - i))
  let b := fixed_mul (tab (255 - i)) (tab (255 - i)) + fixed_mul (tab (i + 1)) (tab (i + 1))
  decide (-404 ≤ a - 65536) && decide (a - 65536 ≤ 404) &&
    (decide (254 ≤ i) || (decide (-404 ≤ b - 65536) && decide (b - 65536 ≤ 404)))

/-- Per-index certificate that the sine table entries lie in [0, 65535]. -/
def tabOK (i : Nat) : Bool := decide (0 ≤ tab i) && decide (tab i ≤ 65535)

/-- Certificate family for the overflow branch of fixed_cos: complementary
table pairs (i, 127-i) and (i, 126-i) arising when the wrapped cosine reads
the fourth quadrant while the sine reads the first.  The squared sums stay
in [18630, 65534]. -/
def wrapPairA (i : Nat) : Bool :=
  let a := fixed_mul (tab i) (tab i) + fixed_mul (tab (127 - i)) (tab (127 - i))
  let b := fixed_mul (tab i) (tab i) + fixed_mul (tab (126 - i)) (tab (126 - i))
  decide (18630 ≤ a) && decide (a ≤ 65534) && decide (18630 ≤ b) && decide (b ≤ 65534)

/-- Certificate family for the overflow branch of fixed_cos: offset table
pairs (i, i+126) and (for i ≤ 64) (i, i+127) arising when sine and the
wrapped cosine read the same or mirrored quadrants 51102 angle units
apart.  The squared sums stay in [18630, 65534]. -/
def wrapPairB (i : Nat) : Bool :=
  let a := fixed_mul (tab i) (tab i) + fixed_mul (tab (i + 126)) (tab (i + 126))
  let b := fixed_mul (tab i) (tab i) + fixed_mul (tab (i + 127)) (tab (i + 127))
  decide (18630 ≤ a) && decide (a ≤ 65534) &&
    (decide (65 ≤ i) || (decide (18630 ≤ b) && decide (b ≤ 65534)))

/-! ## Camera module (camera.c) -/

/-- Camera state (camera.h): position, direction and view plane, all Q16.16. -/
structure Cam where
  posX : Int
  posY : Int
  dirX : Int
  dirY : Int
  planeX : Int
  planeY : Int

/-- Camera_Rotate from camera.c, parametrised over the fixed-point radian
value.  (The C entry point converts a double degree argument to fixed-point
radians in floating point at the API boundary; every reachable behaviour is
an instance of some fixed-point radians value, over which we quantify.)
Rotates the direction vector with table sine/cosine, re-normalises it with
fixed_sqrt unless its squared length is exactly FIXED_ONE, then rebuilds
the view plane with the 0.66 FOV constant (43253). -/
def Camera_Rotate (radians : Int) (cam : Cam) : Cam :=
  let cosA := fixed_cos radians
  let sinA := fixed_sin radians
  let dx1 := fixed_mul cam.dirX cosA - fixed_mul cam.dirY sinA
  let dy1 := fixed_mul cam.dirX sinA + fixed_mul cam.dirY cosA
  let lenSq := fixed_mul dx1 dx1 + fixed_mul dy1 dy1
  let dx2 :=
    if 0 < lenSq ∧ lenSq ≠ FIXED_ONE then
      let len := fixed_sqrt lenSq
      if 0 < len then fixed_div dx1 len else dx1
    else dx1
  let dy2 :=
    if 0 < lenSq ∧ lenSq ≠ FIXED_ONE then
      let len := fixed_sqrt lenSq
      if 0 < len then fixed_div dy1 len else dy1
    else dy1
  ⟨cam.posX, cam.posY, dx2, dy2,
   -(fixed_mul dy2 43253), fixed_mul dx2 43253⟩

/-- Squared direction length as the engine computes it:
fixed_mul(dirX,dirX) + fixed_mul(dirY,dirY). -/
def lenSqD (x y : Int) : Int := fixed_mul x x + fixed_mul y y

/-- The camera drift-correction invariant: the squared direction length is
within 16/65536 of FIXED_ONE (and consequently each component is bounded
by 65545, which also certifies that no int32 narrowing occurs). -/
def GoodDir (x y : Int) : Prop :=
  -16 ≤ lenSqD x y - 65536 ∧ lenSqD x y - 65536 ≤ 16 ∧
    -65545 ≤ x ∧ x ≤ 65545 ∧ -65545 ≤ y ∧ y ≤ 65545

instance (x y : Int) : Decidable (GoodDir x y) := by
  unfold GoodDir; infer_instance

/-- A sequence of Camera_Rotate calls, one per listed angle. -/
def rotateSeq (angles : List Int) (cam : Cam) : Cam :=
  angles.foldl (fun c r => Camera_Rotate r c) cam

/-! ## Render buffer (buffer.c) -/

/-- A quarter-screen render buffer: linear index to stored 16-bit value. -/
def Buf := Int → Int

/-- A Z-buffer: screen column to Q16.16 wall distance. -/
def ZBuf := Int → Int

/-- SWAP16 from buffer.c applied to a uint16 parameter: byte swap of the
16-bit value (the shift-and-or on the promoted value, truncated back to
16 bits on store). -/
def swap16 (c : Int) : Int :=
  let cc := c % 65536
  cc % 256 * 256 + cc / 256

/-- setPixelBuffer from hal/buffer.c: bounds-checked store of the
byte-swapped colour at the Y-inverted linear index
(BUFFER_HEIGHT-1-y)*BUFFER_WIDTH + x, with BUFFER_WIDTH = 40 and
BUFFER_HEIGHT = 128. -/
def setPixelBuffer (x y color : Int) (buf : Buf) : Buf :=
  if 0 ≤ x ∧ x < 40 ∧ 0 ≤ y ∧ y < 128 then
    fun j => if j = (127 - y) * 40 + x then swap16 color else buf j
  else buf

/-- Buffer_SetPixel from buffer.c (part of the current engine HAL);
byte-for-byte the same bounds-checked, Y-inverted, byte-swapped store as
setPixelBuffer. -/
def Buffer_SetPixel (x y color : Int) (buf : Buf) : Buf :=
  if 0 ≤ x ∧ x < 40 ∧ 0 ≤ y ∧ y < 128 then
    fun j => if j = (127 - y) * 40 + x then swap16 color else buf j
  else buf

/-! ## Raycaster (graphics.c, CastRays) -/

/-- Texture descriptor (graphics.h TextureInfo): pixel data, resolution and
precomputed power-of-two mask.  The texture tables themselves are external
authoring-tool output (assets/textures.h is not part of the engine core),
so texture contents are parameters of the embedding. -/
structure Tex where
  data : Int → Int
  resolution : Int
  mask : Int

/-- Result of the DDA loop of CastRays: final map cell, accumulated side
distances, which side was hit, the hit flag (1 wall, -1 out of bounds,
0 budget exhausted), the remaining step budget (the value of maxSteps when
the loop exits) and the list of map cells (mapX, mapY) read from worldMap
inside the loop. -/
structure DDAres where
  mapX : Int
  mapY : Int
  sideDistX : Int
  sideDistY : Int
  sideHit : Int
  hit : Int
  fuelLeft : Nat
  reads : List (Int × Int)

/-- The DDA while-loop of CastRays: while (hit == 0 && maxSteps > 0) step
one cell along the smaller accumulated side distance, break with hit = -1
if the cell leaves the 24 x 24 map, otherwise read worldMap[mapY][mapX]
and stop with hit = 1 on a non-zero tile.  The map is a parameter
m : row -> column -> tile. -/
def ddaLoop (m : Int → Int → Int) (stepX stepY deltaDistX deltaDistY : Int) :
    Nat → Int → Int → Int → Int → Int → DDAres
  | 0, mapX, mapY, sdX, sdY, sideHit => ⟨mapX, mapY, sdX, sdY, sideHit, 0, 0, []⟩
  | fuel+1, mapX, mapY, sdX, sdY, sideHit =>
    let mapX' := if sdX < sdY then mapX + stepX else mapX
    let mapY' := if sdX < sdY then mapY else mapY + stepY
    let sdX' := if sdX < sdY then sdX + deltaDistX else sdX
    let sdY' := if sdX < sdY then sdY else sdY + deltaDistY
    let side' : Int := if sdX < sdY then 0 else 1
    if mapX' < 0 ∨ 24 ≤ mapX' ∨ mapY' < 0 ∨ 24 ≤ mapY' then
      ⟨mapX', mapY', sdX', sdY', side', -1, fuel, []⟩
    else if 0 < m mapY' mapX' then
      ⟨mapX', mapY', sdX', sdY', side', 1, fuel, [(mapX', mapY')]⟩
    else
      let r := ddaLoop m stepX stepY deltaDistX deltaDistY fuel mapX' mapY' sdX' sdY' side'
      ⟨r.mapX, r.mapY, r.sideDistX, r.sideDistY, r.sideHit, r.hit, r.fuelLeft,
        (mapX', mapY') :: r.reads⟩

/-- Per-column camera-space offset times plane, added to the direction:
rayDirX of CastRays.  cameraX_step is (2 * FIXED_ONE) / SCREEN_WIDTH. -/
def rayDirX (cam : Cam) (x : Int) : Int :=
  cam.dirX + fixed_mul cam.planeX (x * (2 * 65536 / 160) - 65536)

/-- rayDirY of CastRays. -/
def rayDirY (cam : Cam) (x : Int) : Int :=
  cam.dirY + fixed_mul cam.planeY (x * (2 * 65536 / 160) - 65536)

/-- deltaDistX of CastRays: |1/rayDirX| with the FIXED_LARGE guard. -/
def deltaDistX (cam : Cam) (x : Int) : Int :=
  if rayDirX cam x = 0 then FIXED_LARGE else fixed_abs (fixed_recip_large (rayDirX cam x))

/-- deltaDistY of CastRays. -/
def deltaDistY (cam : Cam) (x : Int) : Int :=
  if rayDirY cam x = 0 then FIXED_LARGE else fixed_abs (fixed_recip_large (rayDirY cam x))

/-- stepX of CastRays. -/
def stepXv (cam : Cam) (x : Int) : Int := if rayDirX cam x < 0 then -1 else 1

/-- stepY of CastRays. -/
def stepYv (cam : Cam) (x : Int) : Int := if rayDirY cam x < 0 then -1 else 1

/-- Initial sideDistX of CastRays, from the fractional part of posX. -/
def sideDistX0 (cam : Cam) (x : Int) : Int :=
  if rayDirX cam x < 0 then fixed_mul (cam.posX % 65536) (deltaDistX cam x)
  else fixed_mul (65536 - cam.posX % 65536) (deltaDistX cam x)

/-- Initial sideDistY of CastRays. -/
def sideDistY0 (cam : Cam) (x : Int) : Int :=
  if rayDirY cam x < 0 then fixed_mul (cam.posY % 65536) (deltaDistY cam x)
  else fixed_mul (65536 - cam.posY % 65536) (deltaDistY cam x)

/-- The DDA traversal of CastRays for one screen column: the pre-loop setup
(ray direction, entry cell FIXED_TO_INT(pos), step signs, initial side
distances) followed by the bounded loop with budget
maxSteps = MAP_WIDTH + MAP_HEIGHT = 48. -/
def castColumnRes (m : Int → Int → Int) (cam : Cam) (x : Int) : DDAres :=
  ddaLoop m (stepXv cam x) (stepYv cam x) (deltaDistX cam x) (deltaDistY cam x)
    48 (cam.posX / 65536) (cam.posY / 65536) (sideDistX0 cam x) (sideDistY0 cam x) 0

/-- perpWallDist of CastRays: side distance minus one delta on the hit
axis, clamped below at 256 (~0.004). -/
def perpDist (cam : Cam) (x : Int) (res : DDAres) : Int :=
  let p := if res.sideHit = 0 then res.sideDistX - deltaDistX cam x
           else res.sideDistY - deltaDistY cam x
  if p < 256 then 256 else p

/-- The textured vertical span loop of CastRays (the for-loop over y from
drawStart to drawEnd): steps the Q16.16 texture accumulator once per row,
masks the texture row against the power-of-two mask, applies the
precomputed per-column shading and stores through setPixelBuffer. -/
def wallLoop (texData : Int → Int) (texRes texMask texX : Int)
    (shadeShift shadeMask bufferX texStep : Int) :
    Nat → Int → Int → Buf → Buf
  | 0, _, _, buf => buf
  | n+1, y, texPos, buf =>
    let texY := texMask - Int.land (texPos / 65536) texMask
    let color := texData (texY * texRes + texX)
    let shaded := Int.land (color / (if shadeShift = 1 then 2 else 1)) shadeMask
    wallLoop texData texRes texMask texX shadeShift shadeMask bufferX texStep
      n (y + 1) (texPos + texStep) (setPixelBuffer bufferX y shaded buf)

/-- The post-hit part of a CastRays column: wall height and draw span,
texture column from the exact hit point (with the two mirroring rules and
clamps), texture step from fixed_recip_large (including the int32 overflow
of lineHeight << 16 when lineHeight = 32768, kept faithfully via toInt32),
branchless shading parameters, and the span loop.  numTex and tex are the
NUM_TEXTURES constant and texture table from the external asset data. -/
def rasterColumn (numTex : Int) (tex : Int → Tex) (m : Int → Int → Int)
    (cam : Cam) (side x : Int) (res : DDAres) (buf : Buf) : Buf :=
  let perp := perpDist cam x res
  let lineHeight := 8388608 / perp
  let halfLineHeight := lineHeight / 2
  let drawStart := if 64 - halfLineHeight < 0 then 0 else 64 - halfLineHeight
  let drawEnd := if 128 < 64 + halfLineHeight then 128 else 64 + halfLineHeight
  let texNum := (m res.mapY res.mapX - 1) % numTex
  let texRes := (tex texNum).resolution
  let texMask := (tex texNum).mask
  let wallX0 := if res.sideHit = 0 then cam.posY + fixed_mul perp (rayDirY cam x)
                else cam.posX + fixed_mul perp (rayDirX cam x)
  let wallX := wallX0 % 65536
  let tx0 := wallX * texRes / 65536
  let tx1 := if res.sideHit = 0 ∧ 0 < rayDirX cam x then texRes - tx0 - 1 else tx0
  let tx2 := if res.sideHit = 1 ∧ rayDirY cam x < 0 then texRes - tx1 - 1 else tx1
  let tx3 := if tx2 < 0 then 0 else tx2
  let texX := if texRes ≤ tx3 then texRes - 1 else tx3
  let texStep := if 0 < lineHeight
    then texRes * fixed_recip_large (toInt32 (lineHeight * 65536)) else 0
  let texPos := (drawStart - 64 + halfLineHeight) * texStep
  let shadeMask : Int := if res.sideHit = 1 then 31727 else 65535
  let shadeShift : Int := if res.sideHit = 1 then 1 else 0
  let bufferX := x - side * 40
  wallLoop (tex texNum).data texRes texMask texX shadeShift shadeMask bufferX texStep
    (drawEnd - drawStart).toNat drawStart texPos buf

/-- One column of CastRays: run the DDA; if the budget ran out or no wall
was found the column is skipped (continue) leaving both the Z-buffer and
the render buffer untouched; otherwise store the clamped perpendicular
distance in ZBuffer[x] and rasterise the span. -/
def castColumn (numTex : Int) (tex : Int → Tex) (m : Int → Int → Int)
    (cam : Cam) (side x : Int) (zbuf : ZBuf) (buf : Buf) : ZBuf × Buf :=
  let res := castColumnRes m cam x
  if res.fuelLeft = 0 ∨ res.hit ≠ 1 then (zbuf, buf)
  else
    (fun j => if j = x then perpDist cam x res else zbuf j,
     rasterColumn numTex tex m cam side x res buf)

/-- The per-band column loop of CastRays: columns
x = side*BUFFER_WIDTH .. side*BUFFER_WIDTH + 39. -/
def castLoop (numTex : Int) (tex : Int → Tex) (m : Int → Int → Int)
    (cam : Cam) (side : Int) : Nat → Int → ZBuf × Buf → ZBuf × Buf
  | 0, _, s => s
  | n+1, x, s =>
    castLoop numTex tex m cam side n (x + 1) (castColumn numTex tex m cam side x s.1 s.2)

/-- CastRays from graphics.c for one quarter band. -/
def CastRays (numTex : Int) (tex : Int → Tex) (m : Int → Int → Int)
    (cam : Cam) (side : Int) (zbuf : ZBuf) (buf : Buf) : ZBuf × Buf :=
  castLoop numTex tex m cam side 40 (side * 40) (zbuf, buf)

/-! ## Sprite engine (sprites.c) -/

/-- Sprite slot (sprites.h).  World positions are stored by the C code as
doubles and converted with FLOAT_TO_FIXED at the point of use; the
embedding stores the resulting Q16.16 values directly (conversions to and
from floating point happen only at the public configuration boundary).
active is the int8 liveness flag (0 = empty, nonzero = in use). -/
structure SpriteSlot where
  x : Int
  y : Int
  image : Int → Int
  transparent : Int
  width : Int
  height : Int
  scale : Int
  type : Int
  active : Int

/-- Default slot value (zero-initialised global array element). -/
def defaultSlot : SpriteSlot := ⟨0, 0, fun _ => 0, 0, 0, 0, 0, 0, 0⟩

/-- The inverse-camera-transform determinant of Sprites_RenderOne:
planeX * dirY - dirX * planeY. -/
def sprDet (cam : Cam) : Int :=
  fixed_mul cam.planeX cam.dirY - fixed_mul cam.dirX cam.planeY

/-- Camera-space depth transformY of Sprites_RenderOne:
invDet * (-planeY * spriteX + planeX * spriteY). -/
def sprTransformY (cam : Cam) (spr : SpriteSlot) : Int :=
  fixed_mul (fixed_recip_large (sprDet cam))
    (-(fixed_mul cam.planeY (spr.x - cam.posX)) + fixed_mul cam.planeX (spr.y - cam.posY))

/-- Camera-space horizontal offset transformX of Sprites_RenderOne. -/
def sprTransformX (cam : Cam) (spr : SpriteSlot) : Int :=
  fixed_mul (fixed_recip_large (sprDet cam))
    (fixed_mul cam.dirY (spr.x - cam.posX) - fixed_mul cam.dirX (spr.y - cam.posY))

/-- Pass 1 of Sprites_RenderOne: the stripe loop that builds the compact
visible-column list.  A stripe is recorded (bufferX, texX) when it falls in
the current band, passes the strict Z-buffer test
transformY < ZBuffer[stripe], and its texture column is in range; the loop
also stops collecting at MAX_VISIBLE_COLUMNS = 80 entries.  Both fields of
the C VisibleColumn struct are int8_t, so the stored values are narrowed
via toInt8 (bufferX always fits; texX wraps for sprites wider than 128
texels). -/
def buildVisible (zbuf : ZBuf) (transformY drawStartX sideStartX width spriteWidth : Int) :
    Nat → Int → List (Int × Int) → List (Int × Int)
  | 0, _, acc => acc
  | n+1, stripe, acc =>
    if 80 ≤ acc.length then acc
    else
      let acc' :=
        if sideStartX ≤ stripe ∧ stripe < sideStartX + 40 then
          if 0 ≤ stripe ∧ stripe < 160 ∧ transformY < zbuf stripe then
            let texX := Int.tdiv ((stripe - drawStartX) * width) spriteWidth
            if 0 ≤ texX ∧ texX < width then
              acc ++ [(toInt8 (stripe - sideStartX), toInt8 texX)]
            else acc
          else acc
        else acc
      buildVisible zbuf transformY drawStartX sideStartX width spriteWidth n (stripe + 1) acc'

/-- One source row of pass 2 of Sprites_RenderOne: for every recorded
visible column, fetch the texel of this row and store it through
Buffer_SetPixel unless it equals the transparency key. -/
def spriteRow (img : Int → Int) (imgWidth transparent y : Int)
    (vis : List (Int × Int)) (texY : Int) (buf : Buf) : Buf :=
  vis.foldl (fun b p =>
    let c := img (texY * imgWidth + p.2)
    if c ≠ transparent then Buffer_SetPixel p.1 y c b else b) buf

/-- Pass 2 of Sprites_RenderOne: row-major loop over screen rows
drawStartY..drawEndY-1; rows whose source row falls outside the image are
skipped. -/
def spriteRows (img : Int → Int) (imgWidth imgHeight transparent : Int)
    (vis : List (Int × Int)) (drawEndY spriteHeight : Int) :
    Nat → Int → Buf → Buf
  | 0, _, buf => buf
  | n+1, y, buf =>
    let texY := Int.tdiv ((drawEndY - y) * imgHeight) spriteHeight
    let buf' := if texY < 0 ∨ imgHeight ≤ texY then buf
                else spriteRow img imgWidth transparent y vis texY buf
    spriteRows img imgWidth imgHeight transparent vis drawEndY spriteHeight n (y + 1) buf'

/-- Projected screen centre column of Sprites_RenderOne:
HALF_SCREEN_WIDTH * (FIXED_ONE + transformX/transformY) >> 16, with the
int32 overflow of the int multiplication kept via toInt32. -/
def sprScreenX (cam : Cam) (spr : SpriteSlot) : Int :=
  toInt32 (80 * (65536 + fixed_div (sprTransformX cam spr) (sprTransformY cam spr))) / 65536

/-- originalSpriteHeight of Sprites_RenderOne:
|SCREEN_HEIGHT_SHIFTED / transformY|. -/
def sprHeight0 (cam : Cam) (spr : SpriteSlot) : Int :=
  let h0 := 8388608 / sprTransformY cam spr
  if h0 < 0 then -h0 else h0

/-- originalSpriteWidth of Sprites_RenderOne (64-bit product, truncating
division by the sprite's intrinsic height, absolute value). -/
def sprWidth0 (cam : Cam) (spr : SpriteSlot) : Int :=
  let w0 := Int.tdiv (sprHeight0 cam spr * spr.width) spr.height
  if w0 < 0 then -w0 else w0

/-- Scaled spriteHeight: (originalSpriteHeight * scale) >> 3. -/
def sprHeightS (cam : Cam) (spr : SpriteSlot) : Int :=
  sprHeight0 cam spr * spr.scale / 8

/-- Scaled spriteWidth: (originalSpriteWidth * scale) >> 3. -/
def sprWidthS (cam : Cam) (spr : SpriteSlot) : Int :=
  sprWidth0 cam spr * spr.scale / 8

/-- drawStartX of Sprites_RenderOne. -/
def sprDrawStartX (cam : Cam) (spr : SpriteSlot) : Int :=
  sprScreenX cam spr - sprWidthS cam spr / 2

/-- drawEndX of Sprites_RenderOne. -/
def sprDrawEndX (cam : Cam) (spr : SpriteSlot) : Int :=
  sprScreenX cam spr + (sprWidthS cam spr + 1) / 2

/-- The visible-column list built by pass 1 of Sprites_RenderOne for the
current band. -/
def sprVis (cam : Cam) (spr : SpriteSlot) (side : Int) (zbuf : ZBuf) :
    List (Int × Int) :=
  buildVisible zbuf (sprTransformY cam spr) (sprDrawStartX cam spr) (side * 40)
    spr.width (sprWidthS cam spr)
    (sprDrawEndX cam spr - sprDrawStartX cam spr).toNat (sprDrawStartX cam spr) []

/-- Sprites_RenderOne from sprites.c: inverse camera transform, behind-
camera rejection (transformY <= 6554 ~ 0.1), screen projection, scaled
size (scale 8 = intrinsic projected size), clamped draw bounds, the
visible-column pass against the Z-buffer, and row-major rasterisation.
The Z-buffer is only read, never written. -/
def Sprites_RenderOne (cam : Cam) (spr : SpriteSlot) (side : Int)
    (zbuf : ZBuf) (buf : Buf) : Buf :=
  if sprDet cam = 0 then buf
  else if sprTransformY cam spr ≤ 6554 then buf
  else if sprWidthS cam spr ≤ 0 ∨ sprHeightS cam spr ≤ 0 then buf
  else
    let pushdown := (sprHeight0 cam spr - sprHeightS cam spr) / 2
    let drawStartY0 := 64 - sprHeightS cam spr / 2 - pushdown
    let drawEndY0 := 64 + sprHeightS cam spr / 2 - pushdown
    let drawStartY := if drawStartY0 < 0 then 0 else drawStartY0
    let drawEndY := if 128 < drawEndY0 then 128 else drawEndY0
    let vis := sprVis cam spr side zbuf
    if vis = [] then buf
    else
      spriteRows spr.image spr.width spr.height spr.transparent vis drawEndY
        (sprHeightS cam spr) (drawEndY - drawStartY).toNat drawStartY buf

/-- Squared camera distance used by Sprites_RenderAll for depth sorting. -/
def sprDistSq (cam : Cam) (spr : SpriteSlot) : Int :=
  fixed_mul (cam.posX - spr.x) (cam.posX - spr.x) +
    fixed_mul (cam.posY - spr.y) (cam.posY - spr.y)

/-- Sprites_RenderAll from sprites.c: collect the active slots, sort them
far-to-near by squared distance (the qsort comparator orders by strictly
greater distance first; ties may come out in any order, which no claim
depends on), and render those with non-zero width in order. -/
def Sprites_RenderAll (cam : Cam) (table : List SpriteSlot) (side : Int)
    (zbuf : ZBuf) (buf : Buf) : Buf :=
  let active := table.filter (fun s => s.active ≠ 0)
  let sorted := active.mergeSort (fun a b => decide (sprDistSq cam b ≤ sprDistSq cam a))
  sorted.foldl (fun b s => if s.width ≠ 0 then Sprites_RenderOne cam s side zbuf b else b) buf

/-- First inactive slot index: the linear scan of the Sprite_Add loop. -/
def firstFreeAux : List SpriteSlot → Nat → Option Nat
  | [], _ => none
  | s :: rest, i => if s.active = 0 then some i else firstFreeAux rest (i + 1)

/-- Sprite_Add from sprites.c: claim the first inactive slot, fill it,
bump Sprites_Count and return the slot index; with no free slot return
(uint8_t)(-1) = 255 and change nothing.  State is (table, count). -/
def Sprite_Add (x y : Int) (image : Int → Int) (width height scale transparent : Int)
    (table : List SpriteSlot) (count : Int) : List SpriteSlot × Int × Int :=
  match firstFreeAux table 0 with
  | some i => (table.set i ⟨x, y, image, transparent, width, height, scale, 0, 1⟩,
               count + 1, (i : Int))
  | none => (table, count, 255)

/-- Sprite_Remove from sprites.c: range check, already-inactive check, then
clear only the liveness flag of the named slot and decrement the count. -/
def Sprite_Remove (index : Int) (table : List SpriteSlot) (count : Int) :
    List SpriteSlot × Int :=
  if index < 0 ∨ 16 ≤ index then (table, count)
  else
    let s := table.getD index.toNat defaultSlot
    if s.active = 0 then (table, count)
    else (table.set index.toNat ⟨s.x, s.y, s.image, s.transparent, s.width, s.height,
      s.scale, s.type, 0⟩, count - 1)

/-- Sprite_Move from sprites.c: guarded in-place position update. -/
def Sprite_Move (index : Int) (x y : Int) (table : List SpriteSlot) :
    List SpriteSlot :=
  if index < 0 ∨ 16 ≤ index then table
  else
    let s := table.getD index.toNat defaultSlot
    if s.active = 0 then table
    else table.set index.toNat ⟨x, y, s.image, s.transparent, s.width, s.height,
      s.scale, s.type, s.active⟩

/-- Sprite_Scale from sprites.c: guarded in-place scale update. -/
def Sprite_Scale (index : Int) (scale : Int) (table : List SpriteSlot) :
    List SpriteSlot :=
  if index < 0 ∨ 16 ≤ index then table
  else
    let s := table.getD index.toNat defaultSlot
    if s.active = 0 then table
    else table.set index.toNat ⟨s.x, s.y, s.image, s.transparent, s.width, s.height,
      scale, s.type, s.active⟩

/-- Sprite_Get from sprites.c: null (none) for an out-of-range index or an
inactive slot, otherwise a read-only view of the slot. -/
def Sprite_Get (index : Int) (table : List SpriteSlot) : Option SpriteSlot :=
  if index < 0 ∨ 16 ≤ index then none
  else
    let s := table.getD index.toNat defaultSlot
    if s.active = 0 then none else some s

/-! ## Frame function (raycast3d.c) -/

/-- clearZBuffer from raycast3d.c: every screen column reset to the
FIXED_LARGE sentinel. -/
def clearZBuffer (z : ZBuf) : ZBuf :=
  fun i => if 0 ≤ i ∧ i < 160 then FIXED_LARGE else z i

/-- Buffer_Clear: the front buffer is refilled from the precomputed
sky/floor background (whose 5120 cells are a pure function of the
configured colours). -/
def bufClear (bg : Int → Int) (buf : Buf) : Buf :=
  fun j => if 0 ≤ j ∧ j < 5120 then bg j else buf j

/-- One band of RayCast3D_Render: Buffer_Clear, CastRays, Sprites_RenderAll,
Graphics_RenderOverlays, then Buffer_RenderDMA which swaps the render and
DMA buffer roles.  Modelled from the spec: Graphics_RenderOverlays (whose
definition is not part of the analysed sources, only its call site) drains
the per-frame text and foreground-sprite queues into the band buffer
through Buffer_SetPixel-style writes; it is therefore a parameter
ov : side -> Buf -> Buf acting on the render buffer only.  The frame state
is (Z-buffer, front render buffer, back DMA buffer). -/
def renderBand (numTex : Int) (tex : Int → Tex) (m : Int → Int → Int)
    (cam : Cam) (table : List SpriteSlot) (bg : Int → Int)
    (ov : Int → Buf → Buf) (side : Int)
    (st : ZBuf × Buf × Buf) : ZBuf × Buf × Buf :=
  let front1 := bufClear bg st.2.1
  let zb := CastRays numTex tex m cam side st.1 front1
  let front3 := Sprites_RenderAll cam table side zb.1 zb.2
  let front4 := ov side front3
  (zb.1, st.2.2, front4)

/-- RayCast3D_Render from raycast3d.c: clear the Z-buffer once, then render
the four quarter bands in order. -/
def RayCast3D_Render (numTex : Int) (tex : Int → Tex) (m : Int → Int → Int)
    (cam : Cam) (table : List SpriteSlot) (bg : Int → Int)
    (ov : Int → Buf → Buf) (st : ZBuf × Buf × Buf) : ZBuf × Buf × Buf :=
  let st0 := (clearZBuffer st.1, st.2.1, st.2.2)
  renderBand numTex tex m cam table bg ov 3
    (renderBand numTex tex m cam table bg ov 2
      (renderBand numTex tex m cam table bg ov 1
        (renderBand numTex tex m cam table bg ov 0 st0)))

/-- The Z-buffer effect of CastRays alone (buffer argument irrelevant,
proved below): used to state that only CastRays writes the Z-buffer. -/
def castZ (numTex : Int) (tex : Int → Tex) (m : Int → Int → Int)
    (cam : Cam) (side : Int) (z : ZBuf) : ZBuf :=
  (CastRays numTex tex m cam side z (fun _ => 0)).1

/-! ## Concrete states used to instantiate theorems with hypotheses -/

/-- The default camera state of camera.c: position (12, 12), direction
(0, -1), plane (0.66, 0). -/
def cam0 : Cam := ⟨786432, 786432, 0, -65536, 43253, 0⟩

/-- A concrete sprite two tiles in front of the default camera: world
position (12, 10), a 16 x 16 solid image of colour 5, key colour 0,
scale 8, active. -/
def spr0 : SpriteSlot := ⟨786432, 655360, fun _ => 5, 0, 16, 16, 8, 0, 1⟩

/-- A Z-buffer holding the per-frame FIXED_LARGE sentinel everywhere. -/
def zLarge : ZBuf := fun _ => FIXED_LARGE

/-- An all-zero render buffer. -/
def buf0 : Buf := fun _ => 0

/-- A map whose every tile is a wall (the first DDA step hits). -/
def mWall : Int → Int → Int := fun _ _ => 1

/-- A fully open (empty) map: every traversal escapes. -/
def mOpen : Int → Int → Int := fun _ _ => 0

/-- A fresh, fully inactive sprite table of the SPRITES_MAX_COUNT slots. -/
def tbl0 : List SpriteSlot := List.replicate 16 defaultSlot

/-- A fully active sprite table. -/
def tblFull : List SpriteSlot := List.replicate 16 spr0

/-- A trivial texture table (16 x 16, constant colour) used to instantiate
theorems at concrete inputs. -/
def texTriv : Int → Tex := fun _ => ⟨fun _ => 7, 16, 15⟩

/-! ## Basic arithmetic lemmas -/

/-- toInt32 is the identity on values that fit in int32. -/
theorem toInt32_eq_self {x : Int} (h1 : -2147483648 ≤ x) (h2 : x < 2147483648) :
    toInt32 x = x := by
  unfold toInt32; omega

/-- chkRange is a sound bounded checker: success means the predicate holds
on the whole interval. -/
theorem chkRange_sound (p : Nat → Bool) :
    ∀ (f lo hi : Nat), chkRange p f lo hi = true →
      ∀ k, lo ≤ k → k < hi → p k = true := by
  intro f
  induction f with
  | zero => intro lo hi h k hk1 hk2; simp [chkRange] at h; omega
  | succ f ih =>
    intro lo hi h k hk1 hk2
    simp only [chkRange] at h
    split at h
    · omega
    · split at h
      · have hk : k = lo := by omega
        rw [hk]; exact h
      · rw [Bool.and_eq_true] at h
        rcases Nat.lt_or_ge k ((lo + hi) / 2) with hlt | hge
        · exact ih lo ((lo + hi) / 2) h.1 k hk1 hlt
        · exact ih ((lo + hi) / 2) hi h.2 k hge hk2

/-- Interval bound for a product from interval bounds on the factors. -/
theorem mul_bound {a b A B : Int} (ha1 : -A ≤ a) (ha2 : a ≤ A)
    (hb1 : -B ≤ b) (hb2 : b ≤ B) : -(A * B) ≤ a * b ∧ a * b ≤ A * B := by
  have h1 : 0 ≤ (A - a) * (B - b) := by
    apply mul_nonneg <;> omega
  have h2 : 0 ≤ (A + a) * (B + b) := by
    apply mul_nonneg <;> omega
  have h3 : 0 ≤ (A - a) * (B + b) := by
    apply mul_nonneg <;> omega
  have h4 : 0 ≤ (A + a) * (B - b) := by
    apply mul_nonneg <;> omega
  constructor <;> nlinarith

/-- A two-sided bound from a bound on the square. -/
theorem bound_of_sq_le {a A : Int} (hA : 0 ≤ A) (h : a * a ≤ A * A) :
    -A ≤ a ∧ a ≤ A := by
  constructor
  · by_contra hc
    push_neg at hc
    nlinarith
  · by_contra hc
    push_neg at hc
    nlinarith

/-- The truncating (C) division leaves a residual smaller than the divisor:
for b > 0, |a - b * tdiv a b| ≤ b - 1. -/
theorem tdiv_residual {a b : Int} (hb : 0 < b) :
    a - (b - 1) ≤ b * Int.tdiv a b ∧ b * Int.tdiv a b ≤ a + (b - 1) := by
  rcases le_or_lt 0 a with ha | ha
  · rw [Int.tdiv_eq_ediv ha (by omega : (0:Int) ≤ b)]
    have h1 := Int.ediv_add_emod a b
    have h2 := Int.emod_nonneg a (by omega : b ≠ 0)
    have h3 := Int.emod_lt_of_pos a hb
    constructor <;> omega
  · have hneg : Int.tdiv a b = -Int.tdiv (-a) b := by
      rw [← Int.neg_tdiv]; simp
    rw [hneg, Int.tdiv_eq_ediv (by omega : (0:Int) ≤ -a) (by omega : (0:Int) ≤ b)]
    have h1 := Int.ediv_add_emod (-a) b
    have h2 := Int.emod_nonneg (-a) (by omega : b ≠ 0)
    have h3 := Int.emod_lt_of_pos (-a) hb
    constructor <;> nlinarith [Int.ediv_add_emod (-a) b]

/-! ## List helper lemmas for the sprite slot table -/

/-- Reading back the updated position of List.set. -/
theorem getD_set_self {α : Type} : ∀ (l : List α) (i : Nat) (v d : α),
    i < l.length → (l.set i v).getD i d = v := by
  intro l
  induction l with
  | nil => intro i v d h; simp at h
  | cons a rest ih =>
    intro i v d h
    cases i with
    | zero => simp [List.set, List.getD]
    | succ j =>
      simp only [List.set, List.getD_cons_succ]
      exact ih j v d (by simpa using h)

/-- Positions other than the updated one are unchanged by List.set. -/
theorem getD_set_ne {α : Type} : ∀ (l : List α) (i j : Nat) (v d : α),
    i ≠ j → (l.set i v).getD j d = l.getD j d := by
  intro l
  induction l with
  | nil => intro i j v d _; simp [List.set]
  | cons a rest ih =>
    intro i j v d hne
    cases i with
    | zero =>
      cases j with
      | zero => omega
      | succ j' => simp [List.set, List.getD_cons_succ]
    | succ i' =>
      cases j with
      | zero => simp [List.set, List.getD]
      | succ j' =>
        simp only [List.set, List.getD_cons_succ]
        exact ih i' j' v d (by omega)

/-- firstFreeAux finds exactly the first inactive index. -/
theorem firstFreeAux_first : ∀ (l : List SpriteSlot) (k i : Nat),
    i < l.length → (l.getD i defaultSlot).active = 0 →
    (∀ j, j < i → (l.getD j defaultSlot).active ≠ 0) →
    firstFreeAux l k = some (k + i) := by
  intro l
  induction l with
  | nil => intro k i h; simp at h
  | cons s rest ih =>
    intro k i hlen hia hfirst
    by_cases hs : s.active = 0
    · have hi0 : i = 0 := by
        by_contra hne
        exact hfirst 0 (by omega) (by simpa [List.getD] using hs)
      rw [hi0]
      simp [firstFreeAux, hs]
    · cases i with
      | zero => simp [List.getD] at hia; exact absurd hia hs
      | succ i' =>
        simp only [firstFreeAux, if_neg hs]
        have := ih (k + 1) i' (by simpa using hlen)
          (by simpa [List.getD_cons_succ] using hia)
          (fun j hj => by
            have := hfirst (j + 1) (by omega)
            simpa [List.getD_cons_succ] using this)
        rw [this]
        congr 1
        omega

/-- firstFreeAux fails exactly when every slot is active. -/
theorem firstFreeAux_none : ∀ (l : List SpriteSlot) (k : Nat),
    (∀ j, j < l.length → (l.getD j defaultSlot).active ≠ 0) →
    firstFreeAux l k = none := by
  intro l
  induction l with
  | nil => intro k _; simp [firstFreeAux]
  | cons s rest ih =>
    intro k hall
    have hs : s.active ≠ 0 := by
      have := hall 0 (by simp)
      simpa [List.getD] using this
    simp only [firstFreeAux, if_neg hs]
    exact ih (k + 1) (fun j hj => by
      have := hall (j + 1) (by simpa using Nat.succ_lt_succ hj)
      simpa [List.getD_cons_succ] using this)

/-! ## Claim theorems: sprite slot table -/

/-- C9: Sprite_Remove, Sprite_Move and Sprite_Scale are safe no-ops, and
Sprite_Get returns the null indicator, whenever the index is out of
[0, SPRITES_MAX_COUNT) or the addressed slot is inactive; the table and
the active-sprite count are untouched. -/
theorem claim_C9 (index : Int) (table : List SpriteSlot) (count x y scale : Int)
    (hbad : index < 0 ∨ 16 ≤ index ∨ (table.getD index.toNat defaultSlot).active = 0) :
    Sprite_Remove index table count = (table, count) ∧
    Sprite_Move index x y table = table ∧
    Sprite_Scale index scale table = table ∧
    Sprite_Get index table = none := by
  by_cases hr : index < 0 ∨ 16 ≤ index
  · refine ⟨?_, ?_, ?_, ?_⟩ <;>
      simp only [Sprite_Remove, Sprite_Move, Sprite_Scale, Sprite_Get, if_pos hr]
  · have h : (table.getD index.toNat defaultSlot).active = 0 := by tauto
    refine ⟨?_, ?_, ?_, ?_⟩ <;>
      simp only [Sprite_Remove, Sprite_Move, Sprite_Scale, Sprite_Get,
        if_neg hr, if_pos h]

/-- C9 witness: the out-of-range index 20 and the inactive slot 3 of the
fresh table are both safe no-ops. -/
theorem claim_C9_witness :
    (Sprite_Remove 20 tbl0 0 = (tbl0, 0) ∧
     Sprite_Move 20 1 2 tbl0 = tbl0 ∧
     Sprite_Scale 20 7 tbl0 = tbl0 ∧
     Sprite_Get 20 tbl0 = none) ∧
    (Sprite_Remove 3 tbl0 5 = (tbl0, 5) ∧
     Sprite_Move 3 1 2 tbl0 = tbl0 ∧
     Sprite_Scale 3 7 tbl0 = tbl0 ∧
     Sprite_Get 3 tbl0 = none) :=
  ⟨claim_C9 20 tbl0 0 1 2 7 (by right; left; norm_num),
   claim_C9 3 tbl0 5 1 2 7 (by right; right; rfl)⟩

/-- Sprite_Remove on a valid active index: only the named slot loses its
liveness flag (keeping its other fields), every other slot is untouched,
and the count drops by one. -/
theorem sprite_remove_spec (table : List SpriteSlot) (count : Int) (i : Nat)
    (hi : i < 16) (hact : (table.getD i defaultSlot).active ≠ 0) :
    ((Sprite_Remove i table count).1.getD i defaultSlot).active = 0 ∧
    (∀ j, j ≠ i → (Sprite_Remove i table count).1.getD j defaultSlot =
      table.getD j defaultSlot) ∧
    (Sprite_Remove i table count).2 = count - 1 := by
  unfold Sprite_Remove
  have hr : ¬((i : Int) < 0 ∨ 16 ≤ (i : Int)) := by omega
  rw [if_neg hr]
  have htn : (i : Int).toNat = i := by omega
  rw [htn, if_neg hact]
  refine ⟨?_, ?_, rfl⟩
  · by_cases hlen : i < table.length
    · rw [getD_set_self _ _ _ _ hlen]
    · rw [List.set_eq_of_length_le (by omega)]
      have hd : table.getD i defaultSlot = defaultSlot := by
        rw [List.getD_eq_default]; omega
      rw [hd] at hact
      exact absurd rfl hact
  · intro j hj
    exact getD_set_ne _ _ _ _ _ (by omega)

/-- C8: Sprite_Add claims the first inactive slot and returns its index;
with all SPRITES_MAX_COUNT slots active it fails with the 255 indicator
(the uint8 cast of -1) and changes nothing, so a seventeenth consecutive
add fails; Sprite_Remove deactivates exactly the named slot, leaving every
other slot (and its index) unchanged; and after removing a slot from a
full table, the next Sprite_Add fills exactly the freed slot. -/
theorem claim_C8 :
    (∀ (x y : Int) (img : Int → Int) (w h sc tr : Int) (table : List SpriteSlot)
       (count : Int) (i : Nat),
       i < table.length → (table.getD i defaultSlot).active = 0 →
       (∀ j, j < i → (table.getD j defaultSlot).active ≠ 0) →
       Sprite_Add x y img w h sc tr table count =
         (table.set i ⟨x, y, img, tr, w, h, sc, 0, 1⟩, count + 1, (i : Int))) ∧
    (∀ (x y : Int) (img : Int → Int) (w h sc tr : Int) (table : List SpriteSlot)
       (count : Int),
       (∀ j, j < table.length → (table.getD j defaultSlot).active ≠ 0) →
       Sprite_Add x y img w h sc tr table count = (table, count, 255)) ∧
    (∀ (table : List SpriteSlot) (count : Int) (i : Nat),
       i < 16 →
       (table.getD i defaultSlot).active ≠ 0 →
       ((Sprite_Remove i table count).1.getD i defaultSlot).active = 0 ∧
       (∀ j, j ≠ i → (Sprite_Remove i table count).1.getD j defaultSlot =
         table.getD j defaultSlot) ∧
       (Sprite_Remove i table count).2 = count - 1) ∧
    (∀ (x y : Int) (img : Int → Int) (w h sc tr : Int) (table : List SpriteSlot)
       (count count' : Int) (i : Nat),
       table.length = 16 → i < 16 →
       (∀ j, j < 16 → (table.getD j defaultSlot).active ≠ 0) →
       (Sprite_Add x y img w h sc tr (Sprite_Remove i table count).1 count').2.2 =
         (i : Int)) := by
  refine ⟨?_, ?_, ?_, ?_⟩
  · intro x y img w h sc tr table count i hi hia hfirst
    unfold Sprite_Add
    rw [firstFreeAux_first table 0 i hi hia hfirst]
    simp
  · intro x y img w h sc tr table count hall
    unfold Sprite_Add
    rw [firstFreeAux_none table 0 hall]
  · intro table count i hi hact
    exact sprite_remove_spec table count i hi hact
  · intro x y img w h sc tr table count count' i hlen hi hall
    have hact := hall i hi
    have hrem := sprite_remove_spec table count i hi hact
    have hlen' : (Sprite_Remove i table count).1.length = 16 := by
      unfold Sprite_Remove
      have hr : ¬((i : Int) < 0 ∨ 16 ≤ (i : Int)) := by omega
      rw [if_neg hr]
      have htn : (i : Int).toNat = i := by omega
      rw [htn, if_neg hact]
      simpa using hlen
    unfold Sprite_Add
    rw [firstFreeAux_first (Sprite_Remove i table count).1 0 i
      (by rw [hlen']; exact hi) hrem.1
      (fun j hj => by rw [hrem.2.1 j (by omega)]; exact hall j (by omega))]
    simp

/-! ## Claim theorems: pixel writes and reciprocal guards -/

/-- C10: for in-range coordinates the pixel write stores the byte-swapped
colour at exactly the linear cell (BUFFER_HEIGHT-1-y)*BUFFER_WIDTH + x and
changes no other cell; for out-of-range coordinates the buffer is returned
completely unchanged.  This holds for both setPixelBuffer (hal/buffer.c)
and Buffer_SetPixel (the current HAL). -/
theorem claim_C10 (x y color : Int) (buf : Buf)
    (hin : 0 ≤ x ∧ x < 40 ∧ 0 ≤ y ∧ y < 128) :
    (setPixelBuffer x y color buf ((127 - y) * 40 + x) = swap16 color ∧
     (∀ j, j ≠ (127 - y) * 40 + x → setPixelBuffer x y color buf j = buf j) ∧
     Buffer_SetPixel x y color buf ((127 - y) * 40 + x) = swap16 color ∧
     (∀ j, j ≠ (127 - y) * 40 + x → Buffer_SetPixel x y color buf j = buf j)) ∧
    (∀ x' y' color' (buf' : Buf), ¬(0 ≤ x' ∧ x' < 40 ∧ 0 ≤ y' ∧ y' < 128) →
       setPixelBuffer x' y' color' buf' = buf' ∧
       Buffer_SetPixel x' y' color' buf' = buf') := by
  refine ⟨⟨?_, ?_, ?_, ?_⟩, ?_⟩
  · simp [setPixelBuffer, if_pos hin]
  · intro j hj
    simp only [setPixelBuffer, if_pos hin, if_neg hj]
  · simp [Buffer_SetPixel, if_pos hin]
  · intro j hj
    simp only [Buffer_SetPixel, if_pos hin, if_neg hj]
  · intro x' y' color' buf' hout
    exact ⟨by simp only [setPixelBuffer, if_neg hout],
           by simp only [Buffer_SetPixel, if_neg hout]⟩

/-- C10 witness: the write at (5, 7) lands at cell (127-7)*40+5 = 4805
with the byte-swapped colour, leaves cell 0 alone, and the write at
(40, 7) is discarded. -/
theorem claim_C10_witness :
    setPixelBuffer 5 7 258 buf0 4805 = swap16 258 ∧
    setPixelBuffer 5 7 258 buf0 0 = buf0 0 ∧
    Buffer_SetPixel 40 7 258 buf0 = buf0 := by
  have h := claim_C10 5 7 258 buf0 (by norm_num)
  refine ⟨h.1.1, h.1.2.1 0 (by norm_num), (h.2 40 7 258 buf0 (by norm_num)).2⟩

/-- C5 (failing-input evaluation): fixed_recip_large honours the documented
guard, returning the signed FIXED_LARGE sentinel for the whole guard band
|x| < 256, but fixed_recip guards only x == 0: for the tiny non-zero
inputs 1 and 2 its fixed_div fallback overflows the int32 result
(returning 0 and -2^31 instead of the sentinel). -/
theorem claim_C5_eval :
    fixed_recip 0 = FIXED_LARGE ∧
    fixed_recip 1 = 0 ∧
    fixed_recip 2 = -2147483648 ∧
    fixed_recip 1 ≠ FIXED_LARGE ∧
    fixed_recip_large 0 = FIXED_LARGE ∧
    fixed_recip_large 1 = FIXED_LARGE ∧
    fixed_recip_large 255 = FIXED_LARGE ∧
    fixed_recip_large (-1) = -FIXED_LARGE ∧
    fixed_recip_large (-255) = -FIXED_LARGE := by
  refine ⟨by decide, by decide, by decide, by decide, by decide,
    by decide, by decide, by decide, by decide⟩

/-! ## DDA traversal lemmas -/

/-- Every map cell read inside the DDA loop passed the bounds check:
0 <= mapX < MAP_WIDTH and 0 <= mapY < MAP_HEIGHT. -/
theorem ddaLoop_reads_inbounds (m : Int → Int → Int) (sx sy dx dy : Int) :
    ∀ (fuel : Nat) (mapX mapY sdX sdY sh : Int),
      ∀ p ∈ (ddaLoop m sx sy dx dy fuel mapX mapY sdX sdY sh).reads,
        0 ≤ p.1 ∧ p.1 < 24 ∧ 0 ≤ p.2 ∧ p.2 < 24 := by
  intro fuel
  induction fuel with
  | zero => intro mapX mapY sdX sdY sh p hp; simp [ddaLoop] at hp
  | succ f ih =>
    intro mapX mapY sdX sdY sh p hp
    by_cases hstep : sdX < sdY
    · by_cases hout : mapX + sx < 0 ∨ 24 ≤ mapX + sx ∨ mapY < 0 ∨ 24 ≤ mapY
      · simp only [ddaLoop, if_pos hstep, if_pos hout] at hp
        simp at hp
      · by_cases hwall : 0 < m mapY (mapX + sx)
        · simp only [ddaLoop, if_pos hstep, if_neg hout, if_pos hwall] at hp
          simp at hp
          subst hp
          push_neg at hout
          refine ⟨?_, ?_, ?_, ?_⟩ <;> simp <;> omega
        · simp only [ddaLoop, if_pos hstep, if_neg hout, if_neg hwall] at hp
          simp at hp
          rcases hp with hp | hmem
          · subst hp
            push_neg at hout
            refine ⟨?_, ?_, ?_, ?_⟩ <;> simp <;> omega
          · exact ih _ _ _ _ _ p hmem
    · by_cases hout : mapX < 0 ∨ 24 ≤ mapX ∨ mapY + sy < 0 ∨ 24 ≤ mapY + sy
      · simp only [ddaLoop, if_neg hstep, if_pos hout] at hp
        simp at hp
      · by_cases hwall : 0 < m (mapY + sy) mapX
        · simp only [ddaLoop, if_neg hstep, if_neg hout, if_pos hwall] at hp
          simp at hp
          subst hp
          push_neg at hout
          refine ⟨?_, ?_, ?_, ?_⟩ <;> simp <;> omega
        · simp only [ddaLoop, if_neg hstep, if_neg hout, if_neg hwall] at hp
          simp at hp
          rcases hp with hp | hmem
          · subst hp
            push_neg at hout
            refine ⟨?_, ?_, ?_, ?_⟩ <;> simp <;> omega
          · exact ih _ _ _ _ _ p hmem

/-- The DDA loop exits with a wall hit, a bounds escape, or an exhausted
budget. -/
theorem ddaLoop_exit (m : Int → Int → Int) (sx sy dx dy : Int) :
    ∀ (fuel : Nat) (mapX mapY sdX sdY sh : Int),
      (ddaLoop m sx sy dx dy fuel mapX mapY sdX sdY sh).hit = 1 ∨
      (ddaLoop m sx sy dx dy fuel mapX mapY sdX sdY sh).hit = -1 ∨
      (ddaLoop m sx sy dx dy fuel mapX mapY sdX sdY sh).fuelLeft = 0 := by
  intro fuel
  induction fuel with
  | zero => intro mapX mapY sdX sdY sh; right; right; rfl
  | succ f ih =>
    intro mapX mapY sdX sdY sh
    by_cases hstep : sdX < sdY
    · by_cases hout : mapX + sx < 0 ∨ 24 ≤ mapX + sx ∨ mapY < 0 ∨ 24 ≤ mapY
      · simp only [ddaLoop, if_pos hstep, if_pos hout]
        norm_num
      · by_cases hwall : 0 < m mapY (mapX + sx)
        · simp only [ddaLoop, if_pos hstep, if_neg hout, if_pos hwall]
          norm_num
        · simp only [ddaLoop, if_pos hstep, if_neg hout, if_neg hwall]
          exact ih _ _ _ _ _
    · by_cases hout : mapX < 0 ∨ 24 ≤ mapX ∨ mapY + sy < 0 ∨ 24 ≤ mapY + sy
      · simp only [ddaLoop, if_neg hstep, if_pos hout]
        norm_num
      · by_cases hwall : 0 < m (mapY + sy) mapX
        · simp only [ddaLoop, if_neg hstep, if_neg hout, if_pos hwall]
          norm_num
        · simp only [ddaLoop, if_neg hstep, if_neg hout, if_neg hwall]
          exact ih _ _ _ _ _

/-- The loop performs at most one map read per budget unit. -/
theorem ddaLoop_reads_length (m : Int → Int → Int) (sx sy dx dy : Int) :
    ∀ (fuel : Nat) (mapX mapY sdX sdY sh : Int),
      (ddaLoop m sx sy dx dy fuel mapX mapY sdX sdY sh).reads.length ≤ fuel := by
  intro fuel
  induction fuel with
  | zero => intro mapX mapY sdX sdY sh; simp [ddaLoop]
  | succ f ih =>
    intro mapX mapY sdX sdY sh
    by_cases hstep : sdX < sdY
    · by_cases hout : mapX + sx < 0 ∨ 24 ≤ mapX + sx ∨ mapY < 0 ∨ 24 ≤ mapY
      · simp only [ddaLoop, if_pos hstep, if_pos hout]
        simp
      · by_cases hwall : 0 < m mapY (mapX + sx)
        · simp only [ddaLoop, if_pos hstep, if_neg hout, if_pos hwall]
          simp
        · simp only [ddaLoop, if_pos hstep, if_neg hout, if_neg hwall,
            List.length_cons]
          exact Nat.succ_le_succ (ih _ _ _ _ _)
    · by_cases hout : mapX < 0 ∨ 24 ≤ mapX ∨ mapY + sy < 0 ∨ 24 ≤ mapY + sy
      · simp only [ddaLoop, if_neg hstep, if_pos hout]
        simp
      · by_cases hwall : 0 < m (mapY + sy) mapX
        · simp only [ddaLoop, if_neg hstep, if_neg hout, if_pos hwall]
          simp
        · simp only [ddaLoop, if_neg hstep, if_neg hout, if_neg hwall,
            List.length_cons]
          exact Nat.succ_le_succ (ih _ _ _ _ _)

/-- Manhattan capacity of a cell: how many further one-cell steps in the
fixed step directions can stay inside the 24 x 24 map. -/
def ddaCap (sx sy mapX mapY : Int) : Int :=
  (if sx = 1 then 23 - mapX else mapX) + (if sy = 1 then 23 - mapY else mapY)

/-- Capacity invariant: from a cell with capacity below the remaining
budget, a wall hit always leaves budget to spare.  (Each completed step
decreases the capacity by exactly one, and an in-bounds cell has
non-negative capacity, so the budget cannot run out on the very step that
finds the wall.) -/
theorem ddaLoop_hit_fuel (m : Int → Int → Int) (sx sy dx dy : Int)
    (hsx : sx = 1 ∨ sx = -1) (hsy : sy = 1 ∨ sy = -1) :
    ∀ (fuel : Nat) (mapX mapY sdX sdY sh : Int),
      0 ≤ ddaCap sx sy mapX mapY →
      ddaCap sx sy mapX mapY + 1 ≤ (fuel : Int) →
      (ddaLoop m sx sy dx dy fuel mapX mapY sdX sdY sh).hit = 1 →
      0 < (ddaLoop m sx sy dx dy fuel mapX mapY sdX sdY sh).fuelLeft := by
  have capX : ∀ mapX mapY : Int, ddaCap sx sy (mapX + sx) mapY = ddaCap sx sy mapX mapY - 1 := by
    intro mapX mapY
    unfold ddaCap
    rcases hsx with h | h <;> subst h <;> norm_num <;> ring
  have capY : ∀ mapX mapY : Int, ddaCap sx sy mapX (mapY + sy) = ddaCap sx sy mapX mapY - 1 := by
    intro mapX mapY
    unfold ddaCap
    rcases hsy with h | h <;> subst h <;> norm_num <;> ring
  have capNN : ∀ mapX mapY : Int,
      ¬(mapX < 0 ∨ 24 ≤ mapX ∨ mapY < 0 ∨ 24 ≤ mapY) → 0 ≤ ddaCap sx sy mapX mapY := by
    intro mapX mapY hin
    unfold ddaCap
    push_neg at hin
    rcases hsx with h | h <;> rcases hsy with h' | h' <;> subst h <;> subst h' <;>
      norm_num <;> omega
  intro fuel
  induction fuel with
  | zero => intro mapX mapY sdX sdY sh hc hf hhit; simp [ddaLoop] at hhit
  | succ f ih =>
    intro mapX mapY sdX sdY sh hc hf hhit
    by_cases hstep : sdX < sdY
    · by_cases hout : mapX + sx < 0 ∨ 24 ≤ mapX + sx ∨ mapY < 0 ∨ 24 ≤ mapY
      · simp only [ddaLoop, if_pos hstep, if_pos hout] at hhit
        omega
      · have hc' : 0 ≤ ddaCap sx sy (mapX + sx) mapY := capNN _ _ (by tauto)
        by_cases hwall : 0 < m mapY (mapX + sx)
        · simp only [ddaLoop, if_pos hstep, if_neg hout, if_pos hwall] at hhit ⊢
          have := capX mapX mapY
          omega
        · simp only [ddaLoop, if_pos hstep, if_neg hout, if_neg hwall] at hhit ⊢
          exact ih _ _ _ _ _ hc' (by have := capX mapX mapY; omega) hhit
    · by_cases hout : mapX < 0 ∨ 24 ≤ mapX ∨ mapY + sy < 0 ∨ 24 ≤ mapY + sy
      · simp only [ddaLoop, if_neg hstep, if_pos hout] at hhit
        omega
      · have hc' : 0 ≤ ddaCap sx sy mapX (mapY + sy) := capNN _ _ (by tauto)
        by_cases hwall : 0 < m (mapY + sy) mapX
        · simp only [ddaLoop, if_neg hstep, if_neg hout, if_pos hwall] at hhit ⊢
          have := capY mapX mapY
          omega
        · simp only [ddaLoop, if_neg hstep, if_neg hout, if_neg hwall] at hhit ⊢
          exact ih _ _ _ _ _ hc' (by have := capY mapX mapY; omega) hhit

/-- The DDA step signs are always exactly +1 or -1. -/
theorem stepXv_cases (cam : Cam) (x : Int) : stepXv cam x = 1 ∨ stepXv cam x = -1 := by
  unfold stepXv
  split
  · right; rfl
  · left; rfl

/-- The DDA step signs are always exactly +1 or -1 (Y axis). -/
theorem stepYv_cases (cam : Cam) (x : Int) : stepYv cam x = 1 ∨ stepYv cam x = -1 := by
  unfold stepYv
  split
  · right; rfl
  · left; rfl

/-- One-step strengthening of the capacity invariant: from an arbitrary
start cell (the camera may stand anywhere, even off the map), a run of
the loop with budget at least 48 never reports a wall hit with an
exhausted budget: the first completed step lands in bounds with capacity
at most 46, and each later step spends one capacity unit. -/
theorem ddaLoop_hit_fuel_start (m : Int → Int → Int) (sx sy dx dy : Int)
    (hsx : sx = 1 ∨ sx = -1) (hsy : sy = 1 ∨ sy = -1)
    (fuel : Nat) (hfuel : 47 ≤ fuel) :
    ∀ (mapX mapY sdX sdY sh : Int),
      (ddaLoop m sx sy dx dy (fuel + 1) mapX mapY sdX sdY sh).hit = 1 →
      0 < (ddaLoop m sx sy dx dy (fuel + 1) mapX mapY sdX sdY sh).fuelLeft := by
  have capLe : ∀ mapX mapY : Int,
      ¬(mapX < 0 ∨ 24 ≤ mapX ∨ mapY < 0 ∨ 24 ≤ mapY) →
      0 ≤ ddaCap sx sy mapX mapY ∧ ddaCap sx sy mapX mapY ≤ 46 := by
    intro mapX mapY hin
    unfold ddaCap
    push_neg at hin
    rcases hsx with h | h <;> rcases hsy with h' | h' <;> rw [h, h'] <;>
      norm_num <;> omega
  intro mapX mapY sdX sdY sh hhit
  by_cases hstep : sdX < sdY
  · by_cases hout : mapX + sx < 0 ∨ 24 ≤ mapX + sx ∨ mapY < 0 ∨ 24 ≤ mapY
    · simp only [ddaLoop, if_pos hstep, if_pos hout] at hhit
      omega
    · by_cases hwall : 0 < m mapY (mapX + sx)
      · simp only [ddaLoop, if_pos hstep, if_neg hout, if_pos hwall]
        omega
      · simp only [ddaLoop, if_pos hstep, if_neg hout, if_neg hwall] at hhit ⊢
        have hcap := capLe (mapX + sx) mapY hout
        exact ddaLoop_hit_fuel m sx sy dx dy hsx hsy fuel _ _ _ _ _ hcap.1
          (by omega) hhit
  · by_cases hout : mapX < 0 ∨ 24 ≤ mapX ∨ mapY + sy < 0 ∨ 24 ≤ mapY + sy
    · simp only [ddaLoop, if_neg hstep, if_pos hout] at hhit
      omega
    · by_cases hwall : 0 < m (mapY + sy) mapX
      · simp only [ddaLoop, if_neg hstep, if_neg hout, if_pos hwall]
        omega
      · simp only [ddaLoop, if_neg hstep, if_neg hout, if_neg hwall] at hhit ⊢
        have hcap := capLe mapX (mapY + sy) hout
        exact ddaLoop_hit_fuel m sx sy dx dy hsx hsy fuel _ _ _ _ _ hcap.1
          (by omega) hhit

/-- A wall hit of the column DDA always leaves budget: whenever the loop
reports hit = 1 the remaining maxSteps is positive, so the post-loop skip
test (maxSteps <= 0 || hit != 1) never discards a found wall. -/
theorem castColumnRes_hit_fuel (m : Int → Int → Int) (cam : Cam) (x : Int) :
    (castColumnRes m cam x).hit = 1 → 0 < (castColumnRes m cam x).fuelLeft := by
  intro hhit
  unfold castColumnRes at hhit ⊢
  exact ddaLoop_hit_fuel_start m (stepXv cam x) (stepYv cam x)
    (deltaDistX cam x) (deltaDistY cam x) (stepXv_cases cam x) (stepYv_cases cam x)
    47 (by omega) _ _ _ _ _ hhit

/-! ## Claim theorems: DDA traversal -/

/-- C2: for every camera state and screen column, the DDA loop of CastRays
performs at most MAP_WIDTH + MAP_HEIGHT = 48 iterations (hence at most 48
map reads), ends with a wall hit, a bounds escape, or an exhausted step
budget, and every worldMap[mapY][mapX] read it performs satisfies
0 <= mapX < MAP_WIDTH and 0 <= mapY < MAP_HEIGHT - on any map contents,
including an open-boundary map. -/
theorem claim_C2 (m : Int → Int → Int) (cam : Cam) (x : Int) :
    (∀ p ∈ (castColumnRes m cam x).reads,
        0 ≤ p.1 ∧ p.1 < 24 ∧ 0 ≤ p.2 ∧ p.2 < 24) ∧
    ((castColumnRes m cam x).hit = 1 ∨ (castColumnRes m cam x).hit = -1 ∨
      (castColumnRes m cam x).fuelLeft = 0) ∧
    (castColumnRes m cam x).reads.length ≤ 48 := by
  unfold castColumnRes
  exact ⟨ddaLoop_reads_inbounds m _ _ _ _ 48 _ _ _ _ _,
    ddaLoop_exit m _ _ _ _ 48 _ _ _ _ _,
    ddaLoop_reads_length m _ _ _ _ 48 _ _ _ _ _⟩

/-- C3: a column whose traversal escapes the map or exhausts its budget
without a wall is skipped outright - Z-buffer and render buffer are
returned untouched; conversely a wall hit always happens with budget to
spare, after which the clamped perpendicular distance is stored in
ZBuffer[x] (no other column of the Z-buffer changes) and the textured wall
span is rasterised into the band buffer. -/
theorem claim_C3 (numTex : Int) (tex : Int → Tex) (m : Int → Int → Int)
    (cam : Cam) (side x : Int) (z : ZBuf) (b : Buf) :
    ((castColumnRes m cam x).fuelLeft = 0 ∨ (castColumnRes m cam x).hit ≠ 1 →
      castColumn numTex tex m cam side x z b = (z, b)) ∧
    ((castColumnRes m cam x).hit = 1 →
      0 < (castColumnRes m cam x).fuelLeft ∧
      (castColumn numTex tex m cam side x z b).1 x =
        perpDist cam x (castColumnRes m cam x) ∧
      (∀ j, j ≠ x → (castColumn numTex tex m cam side x z b).1 j = z j) ∧
      (castColumn numTex tex m cam side x z b).2 =
        rasterColumn numTex tex m cam side x (castColumnRes m cam x) b) := by
  constructor
  · intro hskip
    simp only [castColumn, if_pos hskip]
  · intro hhit
    have hf := castColumnRes_hit_fuel m cam x hhit
    have hcond : ¬((castColumnRes m cam x).fuelLeft = 0 ∨
        (castColumnRes m cam x).hit ≠ 1) := by
      push_neg
      exact ⟨by omega, hhit⟩
    simp only [castColumn, if_neg hcond]
    refine ⟨hf, ?_, ?_, trivial⟩
    · simp
    · intro j hj
      simp [if_neg hj]

/-- C3 witness: on the fully open map the DDA of the default camera's
column 0 misses and the column is skipped; on the all-wall map it hits
with budget left and column 0 of the Z-buffer receives the perpendicular
distance. -/
theorem claim_C3_witness :
    (castColumn 1 texTriv mOpen cam0 0 0 zLarge buf0 = (zLarge, buf0)) ∧
    0 < (castColumnRes mWall cam0 0).fuelLeft ∧
    (castColumn 1 texTriv mWall cam0 0 0 zLarge buf0).1 0 =
      perpDist cam0 0 (castColumnRes mWall cam0 0) :=
  ⟨(claim_C3 1 texTriv mOpen cam0 0 0 zLarge buf0).1 (by right; decide),
   ((claim_C3 1 texTriv mWall cam0 0 0 zLarge buf0).2 (by decide)).1,
   ((claim_C3 1 texTriv mWall cam0 0 0 zLarge buf0).2 (by decide)).2.1⟩

/-! ## Sine table and quadrant analysis -/

set_option maxRecDepth 40000 in
/-- Exhaustive check of the per-index trigonometric certificates. -/
theorem sinSqPair_enum : chkRange sinSqPairOK 9 0 255 = true := by decide

set_option maxRecDepth 40000 in
/-- Exhaustive check of the table-entry range certificates. -/
theorem tab_enum : chkRange tabOK 9 0 256 = true := by decide

/-- Every sine table entry lies in [0, 65535]. -/
theorem tab_bounds (i : Nat) (hi : i ≤ 255) : 0 ≤ tab i ∧ tab i ≤ 65535 := by
  have h := chkRange_sound tabOK 9 0 256 tab_enum i (by omega) (by omega)
  unfold tabOK at h
  rw [Bool.and_eq_true, decide_eq_true_eq, decide_eq_true_eq] at h
  exact h

/-- The clamped table index of fixed_sin is always in [0, 255]. -/
theorem sinIndex_range (a : Int) : 0 ≤ sinIndex a ∧ sinIndex a ≤ 255 := by
  simp only [sinIndex]
  split
  · omega
  · split <;> omega

/-- For a normalised angle the clamp is the identity and the index is at
most 254 (the quadrant phase never reaches FIXED_PI_HALF). -/
theorem sinIndex_eq (a : Int) (h0 : 0 ≤ sinPhase a) (h1 : sinPhase a ≤ 102943) :
    sinIndex a = sinPhase a * 255 / 102944 ∧ 0 ≤ sinIndex a ∧ sinIndex a ≤ 254 := by
  simp only [sinIndex]
  have hlo : 0 ≤ sinPhase a * 255 / 102944 := by omega
  have hhi : sinPhase a * 255 / 102944 ≤ 254 := by omega
  split
  · omega
  · split <;> omega

/-- fixed_sin always returns plus or minus a table entry, hence lies in
[-65535, 65535]. -/
theorem fixed_sin_bounds (t : Int) : -65535 ≤ fixed_sin t ∧ fixed_sin t ≤ 65535 := by
  have hidx := sinIndex_range (t % 411775)
  have h1 := tab_bounds (sinIndex (t % 411775)).toNat (by omega)
  have h2 := tab_bounds (255 - (sinIndex (t % 411775)).toNat) (by omega)
  simp only [fixed_sin]
  split
  · omega
  · split
    · omega
    · split <;> omega

/-- Monotone step of the index map: advancing the phase by one advances
the table index by zero or one. -/
theorem idx_step (p : Int) (h2 : p ≤ 102942) :
    (p + 1) * 255 / 102944 = p * 255 / 102944 ∨
    (p + 1) * 255 / 102944 = p * 255 / 102944 + 1 := by
  omega

/-- Joint shape of a (sin, cos) table pair.  Folding the normalised angle
through the four quadrants, sine and cosine always read table entries at
complementary indices: an aligned pair (i, 255-i); the same pair with the
roles swapped; the off-by-one pair (255-i, i+1) produced by the wrap of
the fourth quadrant (the phase shifts by one because FIXED_2PI = 411775 is
one less than 4 * FIXED_PI_HALF); or the boundary pair (254, 0) at the
single angle where the quarter-turn shift crosses 2*pi exactly. -/
theorem sincos_cases (t : Int) : ∃ i : Nat, i ≤ 254 ∧
    (((fixed_sin t = tab i ∨ fixed_sin t = -tab i) ∧
      (fixed_sin (t + 102944) = tab (255 - i) ∨ fixed_sin (t + 102944) = -tab (255 - i))) ∨
     ((fixed_sin t = tab (255 - i) ∨ fixed_sin t = -tab (255 - i)) ∧
      (fixed_sin (t + 102944) = tab i ∨ fixed_sin (t + 102944) = -tab i)) ∨
     (i ≤ 253 ∧ fixed_sin t = -tab (255 - i) ∧ fixed_sin (t + 102944) = tab (i + 1)) ∨
     (fixed_sin t = -tab 254 ∧ fixed_sin (t + 102944) = tab 0)) := by
  have ha0 : 0 ≤ t % 411775 := by omega
  have ha1 : t % 411775 < 411775 := by omega
  rcases lt_or_le (t % 411775) 102944 with hA | hrest
  · -- quadrant 0: sin = tab i, cos lands in quadrant 1 with the same phase
    have d0 : t % 411775 * 4 / 411775 = 0 := by omega
    have d1 : (t % 411775 + 102944) * 4 / 411775 = 1 := by omega
    have hq : sinQuadrant (t % 411775) = 0 := by unfold sinQuadrant; exact d0
    have hph : sinPhase (t % 411775) = t % 411775 := by
      unfold sinPhase sinQuadrant; rw [d0]; ring
    have hidx := sinIndex_eq (t % 411775) (by rw [hph]; omega) (by rw [hph]; omega)
    refine ⟨(sinIndex (t % 411775)).toNat, by omega, ?_⟩
    left
    constructor
    · left
      rw [fixed_sin, hq]
      norm_num
    · left
      have hmod : (t + 102944) % 411775 = t % 411775 + 102944 := by omega
      have hq' : sinQuadrant (t % 411775 + 102944) = 1 := by
        unfold sinQuadrant; exact d1
      have hphEq : sinPhase (t % 411775 + 102944) = sinPhase (t % 411775) := by
        unfold sinPhase sinQuadrant; rw [d0, d1]; ring
      have hidxEq : sinIndex (t % 411775 + 102944) = sinIndex (t % 411775) := by
        simp only [sinIndex, hphEq]
      rw [fixed_sin, hmod, hq', hidxEq]
      norm_num
  · rcases le_or_lt (t % 411775) 205887 with hB | hrest2
    · -- quadrant 1: sin = tab (255-i), cos lands in quadrant 2, same phase
      have d1 : t % 411775 * 4 / 411775 = 1 := by omega
      have d2 : (t % 411775 + 102944) * 4 / 411775 = 2 := by omega
      have hq : sinQuadrant (t % 411775) = 1 := by unfold sinQuadrant; exact d1
      have hph : sinPhase (t % 411775) = t % 411775 - 102944 := by
        unfold sinPhase sinQuadrant; rw [d1]; ring
      have hidx := sinIndex_eq (t % 411775) (by rw [hph]; omega) (by rw [hph]; omega)
      refine ⟨(sinIndex (t % 411775)).toNat, by omega, ?_⟩
      right; left
      constructor
      · left
        rw [fixed_sin, hq]
        norm_num
      · right
        have hmod : (t + 102944) % 411775 = t % 411775 + 102944 := by omega
        have hq' : sinQuadrant (t % 411775 + 102944) = 2 := by
          unfold sinQuadrant; exact d2
        have hphEq : sinPhase (t % 411775 + 102944) = sinPhase (t % 411775) := by
          unfold sinPhase sinQuadrant; rw [d1, d2]; ring
        have hidxEq : sinIndex (t % 411775 + 102944) = sinIndex (t % 411775) := by
          simp only [sinIndex, hphEq]
        rw [fixed_sin, hmod, hq', hidxEq]
        norm_num
    · rcases lt_or_le (t % 411775) 308831 with hC | hrest3
      · -- quadrant 2 below the boundary angle: sin = -tab i, cos in quadrant 3
        have d2 : t % 411775 * 4 / 411775 = 2 := by omega
        have d3 : (t % 411775 + 102944) * 4 / 411775 = 3 := by omega
        have hq : sinQuadrant (t % 411775) = 2 := by unfold sinQuadrant; exact d2
        have hph : sinPhase (t % 411775) = t % 411775 - 205888 := by
          unfold sinPhase sinQuadrant; rw [d2]; ring
        have hidx := sinIndex_eq (t % 411775) (by rw [hph]; omega) (by rw [hph]; omega)
        refine ⟨(sinIndex (t % 411775)).toNat, by omega, ?_⟩
        left
        constructor
        · right
          rw [fixed_sin, hq]
          norm_num
        · right
          have hmod : (t + 102944) % 411775 = t % 411775 + 102944 := by omega
          have hq' : sinQuadrant (t % 411775 + 102944) = 3 := by
            unfold sinQuadrant; exact d3
          have hphEq : sinPhase (t % 411775 + 102944) = sinPhase (t % 411775) := by
            unfold sinPhase sinQuadrant; rw [d2, d3]; ring
          have hidxEq : sinIndex (t % 411775 + 102944) = sinIndex (t % 411775) := by
            simp only [sinIndex, hphEq]
          rw [fixed_sin, hmod, hq', hidxEq]
          norm_num
      · rcases eq_or_lt_of_le hrest3 with hD | hrest4
        · -- the boundary angle 308831: sin = -tab 254, cos wraps to tab 0
          have d2 : t % 411775 * 4 / 411775 = 2 := by omega
          have hq : sinQuadrant (t % 411775) = 2 := by unfold sinQuadrant; exact d2
          have hph : sinPhase (t % 411775) = 102943 := by
            unfold sinPhase sinQuadrant; rw [d2]; omega
          have hidx254 : sinIndex (t % 411775) = 254 := by
            simp only [sinIndex, hph]
            norm_num
          refine ⟨254, by omega, ?_⟩
          right; right; right
          constructor
          · have : (sinIndex (t % 411775)).toNat = 254 := by rw [hidx254]; rfl
            rw [fixed_sin, hq, this]
            norm_num
          · have hmod : (t + 102944) % 411775 = 0 := by omega
            have hq0 : sinQuadrant 0 = 0 := by unfold sinQuadrant; norm_num
            have hidx0 : (sinIndex 0).toNat = 0 := by
              simp only [sinIndex, sinPhase, sinQuadrant]
              norm_num
            rw [fixed_sin, hmod, hq0, hidx0]
            norm_num
        · -- quadrant 3: sin = -tab (255-i), cos wraps to quadrant 0 with
          -- phase + 1, so its index is i or i + 1
          have d3 : t % 411775 * 4 / 411775 = 3 := by omega
          have dw : (t % 411775 - 308831) * 4 / 411775 = 0 := by omega
          have hq : sinQuadrant (t % 411775) = 3 := by unfold sinQuadrant; exact d3
          have hph : sinPhase (t % 411775) = t % 411775 - 308832 := by
            unfold sinPhase sinQuadrant; rw [d3]; ring
          have hidx := sinIndex_eq (t % 411775) (by rw [hph]; omega) (by rw [hph]; omega)
          have hmod : (t + 102944) % 411775 = t % 411775 - 308831 := by omega
          have hph' : sinPhase (t % 411775 - 308831) = sinPhase (t % 411775) + 1 := by
            unfold sinPhase sinQuadrant; rw [d3, dw]; ring
          have hq' : sinQuadrant (t % 411775 - 308831) = 0 := by
            unfold sinQuadrant; exact dw
          have hidx' := sinIndex_eq (t % 411775 - 308831)
            (by rw [hph', hph]; omega) (by rw [hph', hph]; omega)
          have hii : sinIndex (t % 411775 - 308831) = sinIndex (t % 411775) ∨
              sinIndex (t % 411775 - 308831) = sinIndex (t % 411775) + 1 := by
            rw [hidx.1, hidx'.1, hph']
            exact idx_step (sinPhase (t % 411775)) (by rw [hph]; omega)
          have hsin : fixed_sin t = -tab (255 - (sinIndex (t % 411775)).toNat) := by
            simp only [fixed_sin, hq]
            norm_num
          have hcos : fixed_sin (t + 102944) = tab ((sinIndex (t % 411775 - 308831)).toNat) := by
            rw [fixed_sin, hmod, hq']
            norm_num
          rcases hii with he | he
          · refine ⟨(sinIndex (t % 411775)).toNat, by omega, ?_⟩
            right; left
            refine ⟨Or.inr hsin, Or.inl ?_⟩
            rw [hcos]
            congr 1
            omega
          · refine ⟨(sinIndex (t % 411775)).toNat, by omega, ?_⟩
            right; right; left
            refine ⟨by omega, hsin, ?_⟩
            rw [hcos]
            congr 1
            omega

/-- Squaring through fixed_mul ignores the sign of the operand. -/
theorem fixed_mul_neg_neg (v : Int) : fixed_mul (-v) (-v) = fixed_mul v v := by
  unfold fixed_mul
  rw [neg_mul_neg]

/-- The table identity behind the trigonometric claim: for every angle,
sin^2 + cos^2 as the engine computes it stays within 404 of FIXED_ONE
(404 = one table-step of drift, the quantisation granularity of the
256-entry quadrant table in Q16.16). -/
theorem sincos_sq_bound (t : Int) :
    -404 ≤ fixed_mul (fixed_sin t) (fixed_sin t) +
      fixed_mul (fixed_sin (t + 102944)) (fixed_sin (t + 102944)) - 65536 ∧
    fixed_mul (fixed_sin t) (fixed_sin t) +
      fixed_mul (fixed_sin (t + 102944)) (fixed_sin (t + 102944)) - 65536 ≤ 404 := by
  obtain ⟨i, hi, hcase⟩ := sincos_cases t
  have hF := chkRange_sound sinSqPairOK 9 0 255 sinSqPair_enum i (by omega) (by omega)
  simp only [sinSqPairOK, Bool.and_eq_true, Bool.or_eq_true, decide_eq_true_eq] at hF
  obtain ⟨⟨hF1, hF2⟩, hF3⟩ := hF
  rcases hcase with ⟨hs, hc⟩ | ⟨hs, hc⟩ | ⟨hle, hs, hc⟩ | ⟨hs, hc⟩
  · rcases hs with h | h <;> rcases hc with h' | h' <;>
      rw [h, h'] <;> (try rw [fixed_mul_neg_neg]) <;>
      (try rw [fixed_mul_neg_neg (tab (255 - i))]) <;> constructor <;> omega
  · rcases hs with h | h <;> rcases hc with h' | h' <;>
      rw [h, h'] <;> (try rw [fixed_mul_neg_neg]) <;>
      (try rw [fixed_mul_neg_neg (tab i)]) <;> constructor <;> omega
  · have hG := hF3.resolve_left (by omega)
    rw [hs, hc, fixed_mul_neg_neg]
    constructor <;> omega
  · rw [hs, hc, fixed_mul_neg_neg]
    have hB : fixed_mul (tab 254) (tab 254) + fixed_mul (tab 0) (tab 0) = 65526 := by
      decide
    omega

/-! ## fixed_cos int32-overflow analysis -/

/-- Below the overflow threshold the int32 addition in fixed_cos is
exact. -/
theorem fixed_cos_eq_nowrap (t : Int) (h1 : -2147483648 ≤ t)
    (h2 : t ≤ 2147380703) : fixed_cos t = fixed_sin (t + 102944) := by
  unfold fixed_cos
  rw [toInt32_eq_self (by omega) (by omega)]

/-- Above the threshold the int32 addition angle + FIXED_PI_HALF wraps by
one full 2^32 period. -/
theorem fixed_cos_eq_wrap (t : Int) (h1 : 2147380704 ≤ t)
    (h2 : t ≤ 2147483647) :
    fixed_cos t = fixed_sin (t + 102944 - 4294967296) := by
  unfold fixed_cos toInt32
  congr 1
  omega

/-- fixed_sin only depends on the angle modulo FIXED_2PI. -/
theorem fixed_sin_congr (a b : Int) (h : a % 411775 = b % 411775) :
    fixed_sin a = fixed_sin b := by
  unfold fixed_sin sinIndex sinPhase sinQuadrant
  rw [h]

/-- First-quadrant evaluation of fixed_sin. -/
theorem fixed_sin_eval_q0 (x : Int) (h0 : 0 ≤ x) (h1 : x ≤ 102943) :
    fixed_sin x = tab (sinIndex x).toNat ∧ sinIndex x = x * 255 / 102944 := by
  have hmod : x % 411775 = x := by omega
  have d0 : x * 4 / 411775 = 0 := by omega
  have hq : sinQuadrant x = 0 := by unfold sinQuadrant; exact d0
  have hph : sinPhase x = x := by unfold sinPhase sinQuadrant; rw [d0]; ring
  have hidx := sinIndex_eq x (by rw [hph]; omega) (by rw [hph]; omega)
  constructor
  · rw [fixed_sin, hmod, hq]
    norm_num
  · rw [hidx.1, hph]

/-- Fourth-quadrant evaluation of fixed_sin. -/
theorem fixed_sin_eval_q3 (x : Int) (h0 : 308832 ≤ x) (h1 : x ≤ 411774) :
    fixed_sin x = -tab (255 - (sinIndex x).toNat) ∧
    sinIndex x = (x - 308832) * 255 / 102944 := by
  have hmod : x % 411775 = x := by omega
  have d3 : x * 4 / 411775 = 3 := by omega
  have hq : sinQuadrant x = 3 := by unfold sinQuadrant; exact d3
  have hph : sinPhase x = x - 308832 := by
    unfold sinPhase sinQuadrant; rw [d3]; ring
  have hidx := sinIndex_eq x (by rw [hph]; omega) (by rw [hph]; omega)
  constructor
  · rw [fixed_sin, hmod, hq]
    norm_num
  · rw [hidx.1, hph]

set_option maxRecDepth 40000 in
/-- Exhaustive check of the complementary wrap-pair certificates. -/
theorem wrapA_enum : chkRange wrapPairA 9 0 127 = true := by decide

set_option maxRecDepth 40000 in
/-- Exhaustive check of the offset wrap-pair certificates. -/
theorem wrapB_enum : chkRange wrapPairB 9 0 66 = true := by decide

/-- For every angle of the int32 overflow band of fixed_cos, the engine's
sin^2 + cos^2 stays in [18630, 65534]: the wrapped phase shift of 51102
angle units keeps the pair well away from a joint zero, but far from the
unit circle. -/
theorem sincos_sq_wrap (r : Int) (h1 : 2147380704 ≤ r) (h2 : r ≤ 2147483647) :
    18630 ≤ fixed_mul (fixed_sin r) (fixed_sin r) +
      fixed_mul (fixed_cos r) (fixed_cos r) ∧
    fixed_mul (fixed_sin r) (fixed_sin r) +
      fixed_mul (fixed_cos r) (fixed_cos r) ≤ 65534 := by
  obtain ⟨A, hA⟩ : ∃ A, A = r % 411775 := ⟨_, rfl⟩
  have hAr : 0 ≤ A ∧ A < 411775 ∧ (A ≤ 77022 ∨ 385854 ≤ A) := by omega
  have hsinA : fixed_sin r = fixed_sin A := fixed_sin_congr _ _ (by omega)
  have hcosw : fixed_cos r = fixed_sin (r + 102944 - 4294967296) :=
    fixed_cos_eq_wrap r h1 h2
  rw [hsinA, hcosw]
  rcases hAr.2.2 with hseg | hseg
  · rcases le_or_lt A 51101 with hs1 | hs1
    · -- segment 1: sine in quadrant 0, wrapped cosine in quadrant 3
      have hcosA : fixed_sin (r + 102944 - 4294967296) = fixed_sin (A + 360673) :=
        fixed_sin_congr _ _ (by omega)
      have hesin := fixed_sin_eval_q0 A (by omega) (by omega)
      have hecos := fixed_sin_eval_q3 (A + 360673) (by omega) (by omega)
      obtain ⟨i, hi⟩ : ∃ i, i = sinIndex A := ⟨_, rfl⟩
      obtain ⟨j, hj⟩ : ∃ j, j = sinIndex (A + 360673) := ⟨_, rfl⟩
      have hiv : i = A * 255 / 102944 := by rw [hi, hesin.2]
      have hjv : j = (A + 360673 - 308832) * 255 / 102944 := by rw [hj, hecos.2]
      have hib : 0 ≤ i ∧ i ≤ 126 := by omega
      have hoff : j = i + 128 ∨ j = i + 129 := by omega
      have hF := chkRange_sound wrapPairA 9 0 127 wrapA_enum i.toNat (by omega) (by omega)
      simp only [wrapPairA, Bool.and_eq_true, decide_eq_true_eq] at hF
      rw [hcosA, hesin.1, hecos.1, ← hi, ← hj, fixed_mul_neg_neg]
      rcases hoff with ho | ho
      · have h255 : 255 - j.toNat = 127 - i.toNat := by omega
        rw [h255]
        exact ⟨by omega, by omega⟩
      · have h255 : 255 - j.toNat = 126 - i.toNat := by omega
        rw [h255]
        exact ⟨by omega, by omega⟩
    · -- segment 2: both in quadrant 0
      have hcosA : fixed_sin (r + 102944 - 4294967296) = fixed_sin (A - 51102) :=
        fixed_sin_congr _ _ (by omega)
      have hesin := fixed_sin_eval_q0 A (by omega) (by omega)
      have hecos := fixed_sin_eval_q0 (A - 51102) (by omega) (by omega)
      obtain ⟨i, hi⟩ : ∃ i, i = sinIndex A := ⟨_, rfl⟩
      obtain ⟨j, hj⟩ : ∃ j, j = sinIndex (A - 51102) := ⟨_, rfl⟩
      have hiv : i = A * 255 / 102944 := by rw [hi, hesin.2]
      have hjv : j = (A - 51102) * 255 / 102944 := by rw [hj, hecos.2]
      have hib : 126 ≤ i ∧ i ≤ 190 := by omega
      have hjb : 0 ≤ j ∧ j ≤ 64 := by omega
      have hoff : i = j + 126 ∨ i = j + 127 := by omega
      have hF := chkRange_sound wrapPairB 9 0 66 wrapB_enum j.toNat (by omega) (by omega)
      simp only [wrapPairB, Bool.and_eq_true, Bool.or_eq_true, decide_eq_true_eq] at hF
      rw [hcosA, hesin.1, hecos.1, ← hi, ← hj]
      rcases hoff with ho | ho
      · have hieq : i.toNat = j.toNat + 126 := by omega
        rw [hieq]
        exact ⟨by omega, by omega⟩
      · have hieq : i.toNat = j.toNat + 127 := by omega
        have hG := hF.2.resolve_left (by omega)
        rw [hieq]
        exact ⟨by omega, by omega⟩
  · -- segment 3: both in quadrant 3
    have hcosA : fixed_sin (r + 102944 - 4294967296) = fixed_sin (A - 51102) :=
      fixed_sin_congr _ _ (by omega)
    have hesin := fixed_sin_eval_q3 A (by omega) (by omega)
    have hecos := fixed_sin_eval_q3 (A - 51102) (by omega) (by omega)
    obtain ⟨i, hi⟩ : ∃ i, i = sinIndex A := ⟨_, rfl⟩
    obtain ⟨j, hj⟩ : ∃ j, j = sinIndex (A - 51102) := ⟨_, rfl⟩
    have hiv : i = (A - 308832) * 255 / 102944 := by rw [hi, hesin.2]
    have hjv : j = (A - 51102 - 308832) * 255 / 102944 := by rw [hj, hecos.2]
    have hib : 190 ≤ i ∧ i ≤ 254 := by omega
    have hjb : 64 ≤ j ∧ j ≤ 128 := by omega
    have hoff : i = j + 126 ∨ (i = j + 127 ∧ 191 ≤ i) := by omega
    have hm : 1 ≤ 255 - i.toNat ∧ 255 - i.toNat ≤ 65 := by omega
    have hF := chkRange_sound wrapPairB 9 0 66 wrapB_enum (255 - i.toNat) (by omega) (by omega)
    simp only [wrapPairB, Bool.and_eq_true, Bool.or_eq_true, decide_eq_true_eq] at hF
    rw [hcosA, hesin.1, hecos.1, ← hi, ← hj, fixed_mul_neg_neg, fixed_mul_neg_neg]
    rcases hoff with ho | ho
    · have hjeq : 255 - j.toNat = (255 - i.toNat) + 126 := by omega
      rw [hjeq]
      exact ⟨by omega, by omega⟩
    · have hjeq : 255 - j.toNat = (255 - i.toNat) + 127 := by omega
      have hG := hF.2.resolve_left (by omega)
      rw [hjeq]
      exact ⟨by omega, by omega⟩

/-! ## Claim theorems: trigonometric identity -/

/-- C6 (amended): for every representable angle up to the int32 overflow
threshold of the cosine phase shift (theta ≤ INT32_MAX - FIXED_PI_HALF =
2147380703), the engine's fixed_mul(sin,sin) + fixed_mul(cos,cos) equals
FIXED_ONE to within 404, the quantisation error implied by the Q16.16
resolution and the 256-entry quadrant sine table.  (The original claim
over all angles is false: above the threshold the int32 addition inside
fixed_cos wraps and the identity fails by tens of thousands; see the
counterexample.) -/
theorem claim_C6 (theta : Int) (h1 : -2147483648 ≤ theta)
    (h2 : theta ≤ 2147380703) :
    -404 ≤ fixed_mul (fixed_sin theta) (fixed_sin theta) +
      fixed_mul (fixed_cos theta) (fixed_cos theta) - FIXED_ONE ∧
    fixed_mul (fixed_sin theta) (fixed_sin theta) +
      fixed_mul (fixed_cos theta) (fixed_cos theta) - FIXED_ONE ≤ 404 := by
  rw [fixed_cos_eq_nowrap theta h1 h2]
  exact sincos_sq_bound theta

/-- C6 counterexample: at the valid fixed-point angle 2147400000 the int32
addition inside fixed_cos wraps; the engine computes sin = -6824 and
cos = -50404, and its sin^2 + cos^2 comes out as 39475 - off FIXED_ONE by
26061, far outside the fixed tolerance the claim asserts for every
angle. -/
theorem claim_C6_counterexample :
    fixed_mul (fixed_sin 2147400000) (fixed_sin 2147400000) +
      fixed_mul (fixed_cos 2147400000) (fixed_cos 2147400000) = 39475 ∧
    (39475 : Int) - FIXED_ONE = -26061 := by
  constructor
  · decide
  · decide

/-- C6 witness: the amended bound evaluated at the in-range angle 43253
(about 0.66 radians). -/
theorem claim_C6_witness :
    -2147483648 ≤ (43253 : Int) ∧ (43253 : Int) ≤ 2147380703 ∧
    (-404 ≤ fixed_mul (fixed_sin 43253) (fixed_sin 43253) +
      fixed_mul (fixed_cos 43253) (fixed_cos 43253) - FIXED_ONE ∧
     fixed_mul (fixed_sin 43253) (fixed_sin 43253) +
      fixed_mul (fixed_cos 43253) (fixed_cos 43253) - FIXED_ONE ≤ 404) :=
  ⟨by decide, by decide, claim_C6 43253 (by decide) (by decide)⟩

/-! ## Camera re-normalisation analysis: fixed_sqrt convergence -/

/-- One Newton-Raphson iteration of fixed_sqrt, started at or above the
integer square root sigma of the scaled argument, stays at or above sigma,
stays bounded, and contracts the error quadratically. -/
theorem sqrtStep_spec (s g σ : Int) (hs1 : 18611 ≤ s) (hs2 : s ≤ 66136)
    (hσ1 : σ * σ ≤ 65536 * s) (hσ2 : 65536 * s ≤ σ * σ + 2 * σ)
    (hσp : 34924 ≤ σ) (hσu : σ ≤ 65836)
    (hg1 : σ ≤ g) (hg2 : g ≤ 82000) :
    σ ≤ sqrtStep s g ∧ sqrtStep s g ≤ 82000 ∧
    2 * g * (sqrtStep s g - σ) ≤ (g - σ) * (g - σ) + 2 * σ := by
  have hgpos : (0:Int) < g := by omega
  have ht : Int.tdiv (s * 65536) g = s * 65536 / g :=
    Int.tdiv_eq_ediv (by omega) (by omega)
  obtain ⟨D, hD⟩ : ∃ D, D = s * 65536 / g := ⟨_, rfl⟩
  have hres := Int.ediv_add_emod (s * 65536) g
  have hr1 := Int.emod_nonneg (s * 65536) (by omega : g ≠ 0)
  have hr2 := Int.emod_lt_of_pos (s * 65536) hgpos
  have hDl : g * D ≤ s * 65536 := by rw [hD]; linarith
  have hDu : s * 65536 < g * D + g := by rw [hD]; linarith
  have hDnn : 0 ≤ D := by rw [hD]; exact Int.ediv_nonneg (by omega) (by omega)
  have hDub : D ≤ 124107 := by
    by_contra hcon
    push_neg at hcon
    have hm : (34924:Int) * 124108 ≤ g * D :=
      mul_le_mul (by omega) (by omega) (by omega) (by omega)
    omega
  have hstep : sqrtStep s g = (g + D) / 2 := by
    unfold sqrtStep fixed_div
    rw [ht, ← hD, toInt32_eq_self (by omega) (by omega)]
  obtain ⟨g', hg'⟩ : ∃ x, x = (g + D) / 2 := ⟨_, rfl⟩
  rw [hstep, ← hg']
  have hpar : 2 * g' ≤ g + D ∧ g + D ≤ 2 * g' + 1 := by omega
  have hAM : 2 * σ * g ≤ g * g + 65536 * s := by nlinarith [sq_nonneg (g - σ)]
  have hsum : 2 * σ ≤ g + D := by
    by_contra hcon
    push_neg at hcon
    nlinarith
  have ha : σ ≤ g' := by omega
  have hDσ : D ≤ σ + 2 := by
    by_contra hcon
    push_neg at hcon
    nlinarith
  have hb : g' ≤ 82000 := by omega
  refine ⟨ha, hb, ?_⟩
  nlinarith [hpar.1, mul_le_mul_of_nonneg_right hpar.1 (le_of_lt hgpos)]

/-- Single-variable certificate behind the first contraction step: the
seed error of the 32768 branch squares to at most 3350 times the first
iterate. -/
theorem sqrt_key (σ : Int) (hσp : 34924 ≤ σ) (hσu : σ ≤ 65535) :
    ((σ - 32768) * (σ - 32768) + 2 * σ) * ((σ - 32768) * (σ - 32768) + 2 * σ)
      + 2 * σ * (65536 * 65536) ≤ 3350 * 65536 * (σ * σ + 1073741824) := by
  nlinarith [sq_nonneg (σ - 34924), sq_nonneg (σ - 65535), sq_nonneg ((σ - 34924) * (σ - 65535)),
    mul_nonneg (mul_nonneg (by omega : (0:Int) ≤ σ - 34924) (by omega : (0:Int) ≤ 65535 - σ)) (by omega : (0:Int) ≤ σ),
    mul_nonneg (by omega : (0:Int) ≤ σ - 34924) (by omega : (0:Int) ≤ 65535 - σ)]

/-- The certificate follows once the result is within one of the integer
square root. -/
theorem sqrt_cert_final (s σ L : Int) (hσ1 : σ * σ ≤ 65536 * s)
    (hσ2 : 65536 * s ≤ σ * σ + 2 * σ) (hσp : 34924 ≤ σ) (hσu : σ ≤ 65835)
    (hL1 : σ ≤ L) (hL2 : L ≤ σ + 1) :
    34924 ≤ L ∧ L ≤ 65836 ∧
    65536 * (65536 * s - L * L) ≤ 4 * (L * L) ∧
    -(4 * (L * L)) ≤ 65536 * (65536 * s - L * L) := by
  refine ⟨by omega, by omega, ?_, ?_⟩
  · nlinarith only [hσ2, hσp, hσu, hL1, hL2,
      mul_nonneg (by omega : (0:Int) ≤ L - σ) (by omega : (0:Int) ≤ L + σ),
      mul_nonneg (by omega : (0:Int) ≤ σ - 32768) (by omega : (0:Int) ≤ σ)]
  · nlinarith only [hσ1, hσp, hσu, hL1, hL2,
      mul_nonneg (by omega : (0:Int) ≤ σ + 1 - L) (by omega : (0:Int) ≤ σ + 1 + L),
      mul_nonneg (by omega : (0:Int) ≤ σ - 32769) (by omega : (0:Int) ≤ σ)]

set_option maxHeartbeats 1000000 in
/-- fixed_sqrt specification on the window of squared lengths reachable
after one (possibly overflow-affected) table rotation of a near-unit
vector: the four Newton iterations land within one of the integer square
root, so the result squares to the scaled argument within 4 parts in
65536. -/
theorem sqrt_spec (s : Int) (h1 : 18611 ≤ s) (h2 : s ≤ 66136) :
    34924 ≤ fixed_sqrt s ∧ fixed_sqrt s ≤ 65836 ∧
    65536 * (65536 * s - fixed_sqrt s * fixed_sqrt s) ≤ 4 * (fixed_sqrt s * fixed_sqrt s) ∧
    -(4 * (fixed_sqrt s * fixed_sqrt s)) ≤ 65536 * (65536 * s - fixed_sqrt s * fixed_sqrt s) := by
  obtain ⟨σ, hσdef⟩ : ∃ σ : Int, σ = ((65536 * s).toNat.sqrt : Int) := ⟨_, rfl⟩
  have hcast : ((65536 * s).toNat : Int) = 65536 * s := Int.toNat_of_nonneg (by omega)
  have hσnn : 0 ≤ σ := by rw [hσdef]; exact Int.natCast_nonneg _
  have hσ1sq : σ ^ 2 ≤ 65536 * s := by
    rw [hσdef, ← hcast]
    exact_mod_cast Nat.sqrt_le' (65536 * s).toNat
  have hσ1 : σ * σ ≤ 65536 * s := by nlinarith only [hσ1sq]
  have hσ2 : 65536 * s ≤ σ * σ + 2 * σ := by
    have hn : (65536 * s).toNat ≤ (65536 * s).toNat.sqrt * (65536 * s).toNat.sqrt
        + 2 * (65536 * s).toNat.sqrt := by
      have hlt := Nat.lt_succ_sqrt' (65536 * s).toNat
      nlinarith only [hlt]
    rw [hσdef, ← hcast]
    exact_mod_cast hn
  have hσp : 34924 ≤ σ := by
    by_contra hcon
    push_neg at hcon
    nlinarith only [hσ2, hσnn, hcon, h1]
  have hσu : σ ≤ 65835 := by
    by_contra hcon
    push_neg at hcon
    nlinarith only [hσ1, hσnn, hcon, h2]
  by_cases hbr : s ≤ 65535
  · -- seed 32768
    have hσu' : σ ≤ 65535 := by
      by_contra hcon
      push_neg at hcon
      nlinarith only [hσ1, hσnn, hcon, hbr]
    have hfs : fixed_sqrt s = sqrtStep s (sqrtStep s (sqrtStep s (sqrtStep s 32768))) := by
      simp only [fixed_sqrt]
      rw [if_neg (by omega : ¬ s ≤ 0), if_neg (by omega : ¬ 1048576 ≤ s),
        if_neg (by omega : ¬ 262144 ≤ s), if_neg (by omega : ¬ 65536 ≤ s),
        if_pos (by omega : 16384 ≤ s)]
    have hg1 : sqrtStep s 32768 = s + 16384 := by
      unfold sqrtStep fixed_div
      have he : s * 65536 = (2 * s) * 32768 := by ring
      rw [he, Int.mul_tdiv_cancel _ (by norm_num : (32768:Int) ≠ 0),
        toInt32_eq_self (by omega) (by omega)]
      omega
    have hsq : σ * σ ≤ (s + 16384) * (s + 16384) := by
      nlinarith only [hσ1, sq_nonneg (s - 16384)]
    have hσg1 := (bound_of_sq_le (by omega) hsq).2
    have hst2 := sqrtStep_spec s (s + 16384) σ h1 (by omega) hσ1 hσ2 hσp (by omega) hσg1 (by omega)
    obtain ⟨g2, hg2⟩ : ∃ x, x = sqrtStep s (s + 16384) := ⟨_, rfl⟩
    rw [← hg2] at hst2
    have hE : 65536 * ((s + 16384) - σ) ≤ (σ - 32768) * (σ - 32768) + 2 * σ := by
      linarith only [hσ2]
    have hEnn : (0:Int) ≤ (s + 16384) - σ := by omega
    have hkey := sqrt_key σ hσp hσu'
    have hQnn : (0:Int) ≤ (σ - 32768) * (σ - 32768) + 2 * σ := by
      nlinarith only [mul_self_nonneg (σ - 32768), hσnn]
    have hA : (0:Int) ≤ (σ - 32768) * (σ - 32768) + 2 * σ - 65536 * ((s + 16384) - σ) := by
      linarith only [hE]
    have hB : (0:Int) ≤ (σ - 32768) * (σ - 32768) + 2 * σ + 65536 * ((s + 16384) - σ) := by
      linarith only [hQnn, hEnn]
    have he1sq : 65536 * 65536 * (((s + 16384) - σ) * ((s + 16384) - σ)) ≤
        ((σ - 32768) * (σ - 32768) + 2 * σ) * ((σ - 32768) * (σ - 32768) + 2 * σ) := by
      nlinarith only [mul_nonneg hA hB]
    have hKeyFull : ((s + 16384) - σ) * ((s + 16384) - σ) + 2 * σ ≤ 3350 * (s + 16384) := by
      linarith only [he1sq, hkey, hσ1]
    have he2 : g2 - σ ≤ 1675 := by
      by_contra hcon
      push_neg at hcon
      nlinarith only [hst2.2.2, hKeyFull, hcon, h1]
    have hst3 := sqrtStep_spec s g2 σ h1 (by omega) hσ1 hσ2 hσp (by omega) hst2.1 hst2.2.1
    obtain ⟨g3, hg3⟩ : ∃ x, x = sqrtStep s g2 := ⟨_, rfl⟩
    rw [← hg3] at hst3
    have he3 : g3 - σ ≤ 41 := by
      by_contra hcon
      push_neg at hcon
      nlinarith only [hst3.2.2, he2, hst2.1, hσp, hcon]
    have hst4 := sqrtStep_spec s g3 σ h1 (by omega) hσ1 hσ2 hσp (by omega) hst3.1 hst3.2.1
    obtain ⟨g4, hg4⟩ : ∃ x, x = sqrtStep s g3 := ⟨_, rfl⟩
    rw [← hg4] at hst4
    have he4 : g4 - σ ≤ 1 := by
      by_contra hcon
      push_neg at hcon
      nlinarith only [hst4.2.2, he3, hst3.1, hσp, hcon]
    have hfin : fixed_sqrt s = g4 := by rw [hfs, hg1, ← hg2, ← hg3, ← hg4]
    rw [hfin]
    exact sqrt_cert_final s σ g4 hσ1 hσ2 hσp hσu hst4.1 (by omega)
  · -- seed 65536
    push_neg at hbr
    have hσp2 : 65535 ≤ σ := by
      by_contra hcon
      push_neg at hcon
      nlinarith only [hσ2, hσnn, hcon, hbr]
    have hfs : fixed_sqrt s = sqrtStep s (sqrtStep s (sqrtStep s (sqrtStep s 65536))) := by
      simp only [fixed_sqrt]
      rw [if_neg (by omega : ¬ s ≤ 0), if_neg (by omega : ¬ 1048576 ≤ s),
        if_neg (by omega : ¬ 262144 ≤ s), if_pos (by omega : 65536 ≤ s)]
    have hg1 : sqrtStep s 65536 = (65536 + s) / 2 := by
      unfold sqrtStep fixed_div
      rw [Int.mul_tdiv_cancel _ (by norm_num : (65536:Int) ≠ 0),
        toInt32_eq_self (by omega) (by omega)]
    obtain ⟨G1, hG1⟩ : ∃ x, x = (65536 + s) / 2 := ⟨_, rfl⟩
    have hpar : 2 * G1 ≤ 65536 + s ∧ 65536 + s ≤ 2 * G1 + 1 := by
      rw [hG1]
      omega
    have hsq : (2 * σ) * (2 * σ) ≤ (65536 + s) * (65536 + s) := by
      nlinarith only [hσ1, sq_nonneg (s - 65536)]
    have h2σ := (bound_of_sq_le (by omega) hsq).2
    have hσG1 : σ ≤ G1 := by omega
    have hG1u : G1 ≤ 65836 := by omega
    have he1 : G1 - σ ≤ 1 := by
      by_contra hcon
      push_neg at hcon
      nlinarith only [hσ2, hpar.1, hcon, hσp2, hσu,
        mul_nonneg (by omega : (0:Int) ≤ σ - 65535) (by omega : (0:Int) ≤ 65835 - σ)]
    have hst2 := sqrtStep_spec s G1 σ h1 h2 hσ1 hσ2 hσp (by omega) hσG1 (by omega)
    obtain ⟨g2, hg2⟩ : ∃ x, x = sqrtStep s G1 := ⟨_, rfl⟩
    rw [← hg2] at hst2
    have he2 : g2 - σ ≤ 1 := by
      by_contra hcon
      push_neg at hcon
      nlinarith only [hst2.2.2, he1, hσG1, hσp2, hcon]
    have hst3 := sqrtStep_spec s g2 σ h1 h2 hσ1 hσ2 hσp (by omega) hst2.1 hst2.2.1
    obtain ⟨g3, hg3⟩ : ∃ x, x = sqrtStep s g2 := ⟨_, rfl⟩
    rw [← hg3] at hst3
    have he3 : g3 - σ ≤ 1 := by
      by_contra hcon
      push_neg at hcon
      nlinarith only [hst3.2.2, he2, hst2.1, hσp2, hcon]
    have hst4 := sqrtStep_spec s g3 σ h1 h2 hσ1 hσ2 hσp (by omega) hst3.1 hst3.2.1
    obtain ⟨g4, hg4⟩ : ∃ x, x = sqrtStep s g3 := ⟨_, rfl⟩
    rw [← hg4] at hst4
    have he4 : g4 - σ ≤ 1 := by
      by_contra hcon
      push_neg at hcon
      nlinarith only [hst4.2.2, he3, hst3.1, hσp2, hcon]
    have hfin : fixed_sqrt s = g4 := by rw [hfs, hg1, ← hG1, ← hg2, ← hg3, ← hg4]
    rw [hfin]
    exact sqrt_cert_final s σ g4 hσ1 hσ2 hσp hσu hst4.1 (by omega)

/-- fixed_mul computes the exact floor product for moderate operands (no
int32 narrowing occurs). -/
theorem fixed_mul_small {a b : Int} (ha1 : -150000 ≤ a) (ha2 : a ≤ 150000)
    (hb1 : -150000 ≤ b) (hb2 : b ≤ 150000) :
    fixed_mul a b = a * b / 65536 := by
  have hp := mul_bound ha1 ha2 hb1 hb2
  unfold fixed_mul
  apply toInt32_eq_self
  · omega
  · omega

/-- fixed_cos is also a table value. -/
theorem fixed_cos_bounds (t : Int) : -65535 ≤ fixed_cos t ∧ fixed_cos t ≤ 65535 :=
  fixed_sin_bounds (toInt32 (t + 102944))

/-- Range of the rotated direction before re-normalisation: starting from a
GoodDir state, applying the rotation matrix built from a table sine/cosine
pair whose squared sum lies in [18630, 65940] (which covers both the exact
phase shift and the int32-wrapped one) leaves the squared length in
[18611, 66136] and each component below 65837 in magnitude. -/
theorem rotate_pre_range (x y s c : Int)
    (hx1 : -65545 ≤ x) (hx2 : x ≤ 65545) (hy1 : -65545 ≤ y) (hy2 : y ≤ 65545)
    (hs1 : -65535 ≤ s) (hs2 : s ≤ 65535) (hc1 : -65535 ≤ c) (hc2 : c ≤ 65535)
    (hL1 : -16 ≤ lenSqD x y - 65536) (hL2 : lenSqD x y - 65536 ≤ 16)
    (hSC1 : 18630 ≤ fixed_mul s s + fixed_mul c c)
    (hSC2 : fixed_mul s s + fixed_mul c c ≤ 65940) :
    18611 ≤ lenSqD (fixed_mul x c - fixed_mul y s) (fixed_mul x s + fixed_mul y c) ∧
    lenSqD (fixed_mul x c - fixed_mul y s) (fixed_mul x s + fixed_mul y c) ≤ 66136 ∧
    -65837 ≤ fixed_mul x c - fixed_mul y s ∧ fixed_mul x c - fixed_mul y s ≤ 65837 ∧
    -65837 ≤ fixed_mul x s + fixed_mul y c ∧ fixed_mul x s + fixed_mul y c ≤ 65837 := by
  have pxc := mul_bound hx1 hx2 hc1 hc2
  have pys := mul_bound hy1 hy2 hs1 hs2
  have pxs := mul_bound hx1 hx2 hs1 hs2
  have pyc := mul_bound hy1 hy2 hc1 hc2
  have exc : fixed_mul x c = x * c / 65536 := fixed_mul_small (by omega) (by omega) (by omega) (by omega)
  have eys : fixed_mul y s = y * s / 65536 := fixed_mul_small (by omega) (by omega) (by omega) (by omega)
  have exs : fixed_mul x s = x * s / 65536 := fixed_mul_small (by omega) (by omega) (by omega) (by omega)
  have eyc : fixed_mul y c = y * c / 65536 := fixed_mul_small (by omega) (by omega) (by omega) (by omega)
  have exx : fixed_mul x x = x * x / 65536 := fixed_mul_small (by omega) (by omega) (by omega) (by omega)
  have eyy : fixed_mul y y = y * y / 65536 := fixed_mul_small (by omega) (by omega) (by omega) (by omega)
  have ess : fixed_mul s s = s * s / 65536 := fixed_mul_small (by omega) (by omega) (by omega) (by omega)
  have ecc : fixed_mul c c = c * c / 65536 := fixed_mul_small (by omega) (by omega) (by omega) (by omega)
  -- the rotated components, their residuals against the exact products
  obtain ⟨X1, hX1⟩ : ∃ X1, X1 = fixed_mul x c - fixed_mul y s := ⟨_, rfl⟩
  obtain ⟨Y1, hY1⟩ : ∃ Y1, Y1 = fixed_mul x s + fixed_mul y c := ⟨_, rfl⟩
  obtain ⟨A, hA⟩ : ∃ A, A = x * c - y * s := ⟨_, rfl⟩
  obtain ⟨B, hB⟩ : ∃ B, B = x * s + y * c := ⟨_, rfl⟩
  obtain ⟨E1, hE1⟩ : ∃ E1, E1 = 65536 * X1 - A := ⟨_, rfl⟩
  obtain ⟨E2, hE2⟩ : ∃ E2, E2 = 65536 * Y1 - B := ⟨_, rfl⟩
  have hE1b : -65535 ≤ E1 ∧ E1 ≤ 65535 := by
    rw [hE1, hX1, hA, exc, eys]
    constructor <;> omega
  have hE2b : -131070 ≤ E2 ∧ E2 ≤ 131070 := by
    rw [hE2, hY1, hB, exs, eyc]
    constructor <;> omega
  have hAb : -8591832150 ≤ A ∧ A ≤ 8591832150 := by
    rw [hA]
    constructor <;> omega
  have hBb : -8591832150 ≤ B ∧ B ≤ 8591832150 := by
    rw [hB]
    constructor <;> omega
  -- algebraic identity of the rotation
  have hid : A * A + B * B = (x * x + y * y) * (s * s + c * c) := by
    rw [hA, hB]
    ring
  -- squared-length relations through the floor divisions
  have hxy1 : 65536 * lenSqD x y ≤ x * x + y * y := by
    unfold lenSqD
    rw [exx, eyy]
    omega
  have hxy2 : x * x + y * y ≤ 65536 * lenSqD x y + 131070 := by
    unfold lenSqD
    rw [exx, eyy]
    omega
  have hsc1 : 65536 * (fixed_mul s s + fixed_mul c c) ≤ s * s + c * c := by
    rw [ess, ecc]
    omega
  have hsc2 : s * s + c * c ≤ 65536 * (fixed_mul s s + fixed_mul c c) + 131070 := by
    rw [ess, ecc]
    omega
  -- product interval
  have hPlo : (65536 * 65520) * (65536 * 18630) ≤ (x * x + y * y) * (s * s + c * c) := by
    apply mul_le_mul (by omega) (by omega) (by positivity)
      (by linarith only [mul_self_nonneg x, mul_self_nonneg y])
  have hPhi : (x * x + y * y) * (s * s + c * c) ≤
      (65536 * 65552 + 131070) * (65536 * 65940 + 131070) := by
    apply mul_le_mul (by omega) (by omega)
      (by linarith only [mul_self_nonneg s, mul_self_nonneg c]) (by norm_num)
  -- squares of the rotated components
  have hrel1 : 65536 * X1 = A + E1 := by omega
  have hrel2 : 65536 * Y1 = B + E2 := by omega
  have sq1 : 65536 ^ 2 * (X1 * X1) = A * A + 2 * A * E1 + E1 * E1 := by
    linear_combination (65536 * X1 + A + E1) * hrel1
  have sq2 : 65536 ^ 2 * (Y1 * Y1) = B * B + 2 * B * E2 + E2 * E2 := by
    linear_combination (65536 * Y1 + B + E2) * hrel2
  have cr1 := mul_bound hAb.1 hAb.2 hE1b.1 hE1b.2
  have cr2 := mul_bound hBb.1 hBb.2 hE2b.1 hE2b.2
  have sqE1 := mul_bound hE1b.1 hE1b.2 hE1b.1 hE1b.2
  have sqE2 := mul_bound hE2b.1 hE2b.2 hE2b.1 hE2b.2
  have hE1nn := mul_self_nonneg E1
  have hE2nn := mul_self_nonneg E2
  -- combined bound on the exact squared length of the rotated vector
  have hcomb : 65536 ^ 2 * (X1 * X1 + Y1 * Y1) =
      (x * x + y * y) * (s * s + c * c) + 2 * A * E1 + 2 * B * E2 + E1 * E1 + E2 * E2 := by
    linear_combination sq1 + sq2 + hid
  -- the computed squared length
  have hX1b : -131091 ≤ X1 ∧ X1 ≤ 131091 := by constructor <;> omega
  have hY1b : -131091 ≤ Y1 ∧ Y1 ≤ 131091 := by constructor <;> omega
  have eX1 : fixed_mul X1 X1 = X1 * X1 / 65536 :=
    fixed_mul_small (by omega) (by omega) (by omega) (by omega)
  have eY1 : fixed_mul Y1 Y1 = Y1 * Y1 / 65536 :=
    fixed_mul_small (by omega) (by omega) (by omega) (by omega)
  have hL1rel : 65536 * lenSqD X1 Y1 ≤ X1 * X1 + Y1 * Y1 ∧
      X1 * X1 + Y1 * Y1 ≤ 65536 * lenSqD X1 Y1 + 131070 := by
    unfold lenSqD
    rw [eX1, eY1]
    constructor <;> omega
  have hXYnn : 0 ≤ X1 * X1 ∧ 0 ≤ Y1 * Y1 := ⟨mul_self_nonneg X1, mul_self_nonneg Y1⟩
  have goal1 : 18611 ≤ lenSqD X1 Y1 := by
    linarith only [hcomb, hPlo, cr1.1, cr2.1, hE1nn, hE2nn, hL1rel.2]
  have goal2 : lenSqD X1 Y1 ≤ 66136 := by
    linarith only [hcomb, hPhi, cr1.2, cr2.2, sqE1.2, sqE2.2, hL1rel.1]
  have hcompX : X1 * X1 ≤ 65837 * 65837 := by
    linarith only [sq1, hid, hPhi, cr1.2, sqE1.2, mul_self_nonneg B]
  have hcompY : Y1 * Y1 ≤ 65837 * 65837 := by
    linarith only [sq2, hid, hPhi, cr2.2, sqE2.2, mul_self_nonneg A]
  have hbX := bound_of_sq_le (by norm_num) hcompX
  have hbY := bound_of_sq_le (by norm_num) hcompY
  rw [← hX1, ← hY1]
  exact ⟨goal1, goal2, hbX.1, hbX.2, hbY.1, hbY.2⟩

/-- Re-normalisation restores the drift invariant: dividing a rotated
near-unit vector by its fixed_sqrt length yields a GoodDir state. -/
theorem rotate_norm_good (u v : Int)
    (hu1 : -65837 ≤ u) (hu2 : u ≤ 65837) (hv1 : -65837 ≤ v) (hv2 : v ≤ 65837)
    (h1 : 18611 ≤ lenSqD u v) (h2 : lenSqD u v ≤ 66136) :
    GoodDir (fixed_div u (fixed_sqrt (lenSqD u v)))
      (fixed_div v (fixed_sqrt (lenSqD u v))) := by
  obtain ⟨hlen1, hlen2, hsq1, hsq2⟩ := sqrt_spec (lenSqD u v) h1 h2
  obtain ⟨len, hlen⟩ : ∃ len, len = fixed_sqrt (lenSqD u v) := ⟨_, rfl⟩
  rw [← hlen] at hlen1 hlen2 hsq1 hsq2 ⊢
  have hlpos : 0 < len := by omega
  obtain ⟨qu, hqu⟩ : ∃ q, q = Int.tdiv (u * 65536) len := ⟨_, rfl⟩
  obtain ⟨qv, hqv⟩ : ∃ q, q = Int.tdiv (v * 65536) len := ⟨_, rfl⟩
  have hru := tdiv_residual (a := u * 65536) hlpos
  have hrv := tdiv_residual (a := v * 65536) hlpos
  rw [← hqu] at hru
  rw [← hqv] at hrv
  -- coarse bounds on the quotients, enough to rule out int32 narrowing
  have hqub : -130000 ≤ qu ∧ qu ≤ 130000 := by
    constructor <;> nlinarith only [hru.1, hru.2, hlen1, hlen2, hu1, hu2]
  have hqvb : -130000 ≤ qv ∧ qv ≤ 130000 := by
    constructor <;> nlinarith only [hrv.1, hrv.2, hlen1, hlen2, hv1, hv2]
  have edu : fixed_div u len = qu := by
    unfold fixed_div
    rw [← hqu]
    exact toInt32_eq_self (by omega) (by omega)
  have edv : fixed_div v len = qv := by
    unfold fixed_div
    rw [← hqv]
    exact toInt32_eq_self (by omega) (by omega)
  rw [edu, edv]
  -- residuals of the truncating division
  obtain ⟨ru, hruDef⟩ : ∃ r, r = u * 65536 - len * qu := ⟨_, rfl⟩
  obtain ⟨rv, hrvDef⟩ : ∃ r, r = v * 65536 - len * qv := ⟨_, rfl⟩
  have hrub : -(len - 1) ≤ ru ∧ ru ≤ len - 1 := by
    rw [hruDef]
    constructor <;> omega
  have hrvb : -(len - 1) ≤ rv ∧ rv ≤ len - 1 := by
    rw [hrvDef]
    constructor <;> omega
  have hrel1 : len * qu = u * 65536 - ru := by rw [hruDef]; ring
  have hrel2 : len * qv = v * 65536 - rv := by rw [hrvDef]; ring
  -- squares of the quotients scaled by len^2
  have sq1 : (len * len) * (qu * qu) =
      65536 ^ 2 * (u * u) - 2 * (u * 65536) * ru + ru * ru := by
    linear_combination (len * qu + u * 65536 - ru) * hrel1
  have sq2 : (len * len) * (qv * qv) =
      65536 ^ 2 * (v * v) - 2 * (v * 65536) * rv + rv * rv := by
    linear_combination (len * qv + v * 65536 - rv) * hrel2
  -- computed squared lengths through the floor divisions
  have equ : fixed_mul qu qu = qu * qu / 65536 :=
    fixed_mul_small (by omega) (by omega) (by omega) (by omega)
  have eqv : fixed_mul qv qv = qv * qv / 65536 :=
    fixed_mul_small (by omega) (by omega) (by omega) (by omega)
  have euu : fixed_mul u u = u * u / 65536 :=
    fixed_mul_small (by omega) (by omega) (by omega) (by omega)
  have evv : fixed_mul v v = v * v / 65536 :=
    fixed_mul_small (by omega) (by omega) (by omega) (by omega)
  have hL2rel : 65536 * lenSqD qu qv ≤ qu * qu + qv * qv ∧
      qu * qu + qv * qv ≤ 65536 * lenSqD qu qv + 131070 := by
    unfold lenSqD
    rw [equ, eqv]
    constructor <;> omega
  have hLrel : 65536 * lenSqD u v ≤ u * u + v * v ∧
      u * u + v * v ≤ 65536 * lenSqD u v + 131070 := by
    unfold lenSqD
    rw [euu, evv]
    constructor <;> omega
  -- per-component bound |u| <= len + 4
  have hlenR : (0:Int) ≤ (len - 34924) * (65836 - len) :=
    mul_nonneg (by omega) (by omega)
  have hub : u * u ≤ (len + 4) * (len + 4) := by
    nlinarith only [hsq1, hLrel.2, mul_self_nonneg v, hlenR]
  have hvb : v * v ≤ (len + 4) * (len + 4) := by
    nlinarith only [hsq1, hLrel.2, mul_self_nonneg u, hlenR]
  have hu4 := bound_of_sq_le (by omega) hub
  have hv4 := bound_of_sq_le (by omega) hvb
  -- symbolic cross-term bounds
  have cu := mul_bound (a := u * 65536) (A := (len + 4) * 65536)
    (by nlinarith only [hu4.1]) (by nlinarith only [hu4.2]) hrub.1 hrub.2
  have cv := mul_bound (a := v * 65536) (A := (len + 4) * 65536)
    (by nlinarith only [hv4.1]) (by nlinarith only [hv4.2]) hrvb.1 hrvb.2
  have squS := mul_bound hrub.1 hrub.2 hrub.1 hrub.2
  have hrunn := mul_self_nonneg ru
  have hrvnn := mul_self_nonneg rv
  have sqvS := mul_bound hrvb.1 hrvb.2 hrvb.1 hrvb.2
  -- scaled upper bound on the squared length of the normalised vector
  have hup : len * len * (qu * qu + qv * qv) ≤ (65536 * 65552) * (len * len) := by
    nlinarith only [sq1, sq2, cu.1, cv.1, squS.2, sqvS.2, hsq1, hLrel.2, hlen1, hlen2]
  have hq2up : qu * qu + qv * qv ≤ 65536 * 65552 := by
    by_contra hcon
    push_neg at hcon
    nlinarith only [hup, hcon, hlen1, hlen2]
  -- scaled lower bound
  have hlow : (65536 * 65528) * (len * len) - 786432 * len ≤
      len * len * (qu * qu + qv * qv) := by
    nlinarith only [sq1, sq2, cu.2, cv.2, hrunn, hrvnn, hsq2, hLrel.1, hlen1, hlen2]
  have hq2low : 65536 * 65528 - 23 ≤ qu * qu + qv * qv := by
    by_contra hcon
    push_neg at hcon
    nlinarith only [hlow, hcon, hlen1, hlen2]
  -- component bounds of the result
  have hq1up : (len * qu) * (len * qu) ≤ (65537 * len + 262143) * (65537 * len + 262143) := by
    nlinarith only [sq1, cu.1, squS.2, hub, hlen1, hlen2]
  have hq1abs := bound_of_sq_le (by omega : (0:Int) ≤ 65537 * len + 262143) hq1up
  have hquF : -65545 ≤ qu ∧ qu ≤ 65545 := by
    constructor
    · by_contra hcon
      push_neg at hcon
      nlinarith only [hq1abs.1, hlen1, hcon, hlpos]
    · by_contra hcon
      push_neg at hcon
      nlinarith only [hq1abs.2, hlen1, hcon, hlpos]
  have hq2v : (len * qv) * (len * qv) ≤ (65537 * len + 262143) * (65537 * len + 262143) := by
    nlinarith only [sq2, cv.1, sqvS.2, hvb, hlen1, hlen2]
  have hq2abs := bound_of_sq_le (by omega : (0:Int) ≤ 65537 * len + 262143) hq2v
  have hqvF : -65545 ≤ qv ∧ qv ≤ 65545 := by
    constructor
    · by_contra hcon
      push_neg at hcon
      nlinarith only [hq2abs.1, hlen1, hcon, hlpos]
    · by_contra hcon
      push_neg at hcon
      nlinarith only [hq2abs.2, hlen1, hcon, hlpos]
  exact ⟨by omega, by omega, hquF.1, hquF.2, hqvF.1, hqvF.2⟩

/-- The skip branch of Camera_Rotate (squared length exactly FIXED_ONE)
also satisfies the invariant. -/
theorem rotate_skip_good (u v : Int)
    (hu1 : -150000 ≤ u) (hu2 : u ≤ 150000) (hv1 : -150000 ≤ v) (hv2 : v ≤ 150000)
    (hL : lenSqD u v = 65536) : GoodDir u v := by
  have euu : fixed_mul u u = u * u / 65536 :=
    fixed_mul_small (by omega) (by omega) (by omega) (by omega)
  have evv : fixed_mul v v = v * v / 65536 :=
    fixed_mul_small (by omega) (by omega) (by omega) (by omega)
  have hunn := mul_self_nonneg u
  have hvnn := mul_self_nonneg v
  unfold lenSqD at hL
  rw [euu, evv] at hL
  have hcu : u * u ≤ 65537 * 65537 := by omega
  have hcv : v * v ≤ 65537 * 65537 := by omega
  have hbu := bound_of_sq_le (by norm_num : (0:Int) ≤ 65537) hcu
  have hbv := bound_of_sq_le (by norm_num : (0:Int) ≤ 65537) hcv
  refine ⟨?_, ?_, by omega, by omega, by omega, by omega⟩ <;>
    · unfold lenSqD
      rw [euu, evv]
      omega

/-- One Camera_Rotate call at any int32 radian value preserves the drift
invariant, whether or not the cosine phase addition wraps. -/
theorem Camera_Rotate_good (r : Int) (cam : Cam)
    (hr1 : -2147483648 ≤ r) (hr2 : r ≤ 2147483647)
    (h : GoodDir cam.dirX cam.dirY) :
    GoodDir (Camera_Rotate r cam).dirX (Camera_Rotate r cam).dirY := by
  obtain ⟨hL1, hL2, hx1, hx2, hy1, hy2⟩ := h
  have hs := fixed_sin_bounds r
  have hc := fixed_cos_bounds r
  have hSC : 18630 ≤ fixed_mul (fixed_sin r) (fixed_sin r) +
      fixed_mul (fixed_cos r) (fixed_cos r) ∧
      fixed_mul (fixed_sin r) (fixed_sin r) +
      fixed_mul (fixed_cos r) (fixed_cos r) ≤ 65940 := by
    rcases le_or_lt r 2147380703 with hw | hw
    · have hb := sincos_sq_bound r
      rw [fixed_cos_eq_nowrap r hr1 hw]
      constructor <;> omega
    · have hb := sincos_sq_wrap r (by omega) (by omega)
      constructor <;> omega
  obtain ⟨hp1, hp2, hq1, hq2, hq3, hq4⟩ :=
    rotate_pre_range cam.dirX cam.dirY (fixed_sin r) (fixed_cos r)
      hx1 hx2 hy1 hy2 hs.1 hs.2 hc.1 hc.2 hL1 hL2 hSC.1 hSC.2
  simp only [Camera_Rotate]
  by_cases hEq : lenSqD (fixed_mul cam.dirX (fixed_cos r) - fixed_mul cam.dirY (fixed_sin r))
      (fixed_mul cam.dirX (fixed_sin r) + fixed_mul cam.dirY (fixed_cos r)) = 65536
  · have hcond : ¬(0 < fixed_mul (fixed_mul cam.dirX (fixed_cos r) -
        fixed_mul cam.dirY (fixed_sin r)) (fixed_mul cam.dirX (fixed_cos r) -
        fixed_mul cam.dirY (fixed_sin r)) + fixed_mul (fixed_mul cam.dirX (fixed_sin r) +
        fixed_mul cam.dirY (fixed_cos r)) (fixed_mul cam.dirX (fixed_sin r) +
        fixed_mul cam.dirY (fixed_cos r)) ∧ fixed_mul (fixed_mul cam.dirX (fixed_cos r) -
        fixed_mul cam.dirY (fixed_sin r)) (fixed_mul cam.dirX (fixed_cos r) -
        fixed_mul cam.dirY (fixed_sin r)) + fixed_mul (fixed_mul cam.dirX (fixed_sin r) +
        fixed_mul cam.dirY (fixed_cos r)) (fixed_mul cam.dirX (fixed_sin r) +
        fixed_mul cam.dirY (fixed_cos r)) ≠ FIXED_ONE) := by
      unfold lenSqD at hEq
      unfold FIXED_ONE
      rw [hEq]
      simp
    rw [if_neg hcond, if_neg hcond]
    exact rotate_skip_good _ _ (by omega) (by omega) (by omega) (by omega) hEq
  · have hcond : 0 < fixed_mul (fixed_mul cam.dirX (fixed_cos r) -
        fixed_mul cam.dirY (fixed_sin r)) (fixed_mul cam.dirX (fixed_cos r) -
        fixed_mul cam.dirY (fixed_sin r)) + fixed_mul (fixed_mul cam.dirX (fixed_sin r) +
        fixed_mul cam.dirY (fixed_cos r)) (fixed_mul cam.dirX (fixed_sin r) +
        fixed_mul cam.dirY (fixed_cos r)) ∧ fixed_mul (fixed_mul cam.dirX (fixed_cos r) -
        fixed_mul cam.dirY (fixed_sin r)) (fixed_mul cam.dirX (fixed_cos r) -
        fixed_mul cam.dirY (fixed_sin r)) + fixed_mul (fixed_mul cam.dirX (fixed_sin r) +
        fixed_mul cam.dirY (fixed_cos r)) (fixed_mul cam.dirX (fixed_sin r) +
        fixed_mul cam.dirY (fixed_cos r)) ≠ FIXED_ONE := by
      unfold lenSqD at hp1 hEq
      unfold FIXED_ONE
      exact ⟨by omega, hEq⟩
    rw [if_pos hcond, if_pos hcond]
    have hsqrt := sqrt_spec _ hp1 hp2
    have hlpos : 0 < fixed_sqrt (fixed_mul (fixed_mul cam.dirX (fixed_cos r) -
        fixed_mul cam.dirY (fixed_sin r)) (fixed_mul cam.dirX (fixed_cos r) -
        fixed_mul cam.dirY (fixed_sin r)) + fixed_mul (fixed_mul cam.dirX (fixed_sin r) +
        fixed_mul cam.dirY (fixed_cos r)) (fixed_mul cam.dirX (fixed_sin r) +
        fixed_mul cam.dirY (fixed_cos r))) := by
      have := hsqrt.1
      unfold lenSqD at this
      omega
    rw [if_pos hlpos, if_pos hlpos]
    exact rotate_norm_good _ _ hq1 hq2 hq3 hq4 hp1 hp2

/-! ## Claim theorem: camera drift-correction invariant -/

/-- Sequences of rotations preserve the drift invariant (helper in
fold-friendly form). -/
theorem rotateSeq_good : ∀ (angles : List Int) (cam : Cam),
    (∀ a ∈ angles, -2147483648 ≤ a ∧ a ≤ 2147483647) →
    GoodDir cam.dirX cam.dirY →
    GoodDir (rotateSeq angles cam).dirX (rotateSeq angles cam).dirY := by
  intro angles
  induction angles with
  | nil => intro cam _ h; exact h
  | cons a rest ih =>
    intro cam hrange h
    simp only [rotateSeq, List.foldl_cons] at ih ⊢
    exact ih (Camera_Rotate a cam)
      (fun b hb => hrange b (List.mem_cons_of_mem a hb))
      (Camera_Rotate_good a cam (hrange a (List.mem_cons_self a rest)).1
        (hrange a (List.mem_cons_self a rest)).2 h)

/-- C1: for every sequence of rotation angles applied by Camera_Rotate
(every representable int32 fixed-point radian value, including those where
the cosine phase addition wraps), starting from a direction vector of unit
length (within the invariant tolerance of 16/65536), the squared direction
magnitude fixed_mul(dirX,dirX) + fixed_mul(dirY,dirY) remains within 16 of
the FIXED_ONE sentinel after every call: the rotated vector is
re-normalised through fixed_sqrt before the call returns.  (GoodDir is the
invariant: squared length within 16 of 65536 plus the component bounds it
implies.) -/
theorem claim_C1 (angles : List Int) (cam : Cam)
    (hrange : ∀ a ∈ angles, -2147483648 ≤ a ∧ a ≤ 2147483647)
    (h : GoodDir cam.dirX cam.dirY) :
    GoodDir (rotateSeq angles cam).dirX (rotateSeq angles cam).dirY :=
  rotateSeq_good angles cam hrange h

/-- C1 witness: three rotations (1 degree, -90 degrees, 33 degrees worth
of fixed-point radians) plus one from the wrap band of the cosine overflow
keep the squared direction length within 16 of FIXED_ONE. -/
theorem claim_C1_witness :
    GoodDir (rotateSeq [-1144, 102944, 37748, 2147400000] cam0).dirX
      (rotateSeq [-1144, 102944, 37748, 2147400000] cam0).dirY :=
  claim_C1 [-1144, 102944, 37748, 2147400000] cam0 (by decide) (by decide)

/-- C8 witness: on the fully active table the seventeenth add fails with
255 and changes nothing; after removing slot 7 from that table, the next
add fills exactly slot 7. -/
theorem claim_C8_witness :
    Sprite_Add 1 2 (fun _ => 0) 3 4 5 6 tblFull 16 = (tblFull, 16, 255) ∧
    (Sprite_Add 1 2 (fun _ => 0) 3 4 5 6 (Sprite_Remove 7 tblFull 16).1 15).2.2 = 7 := by
  have hall : ∀ j, j < 16 → ((tblFull.getD j defaultSlot).active ≠ 0) := by
    intro j hj
    interval_cases j <;> decide
  constructor
  · exact claim_C8.2.1 1 2 (fun _ => 0) 3 4 5 6 tblFull 16
      (by
        intro j hj
        have hlen : tblFull.length = 16 := rfl
        rw [hlen] at hj
        exact hall j hj)
  · exact claim_C8.2.2.2 1 2 (fun _ => 0) 3 4 5 6 tblFull 16 15 7 rfl
      (by omega) hall

/-! ## Z-buffer ownership across a frame -/

/-- The Z-buffer output of one CastRays column does not depend on the
render buffer contents. -/
theorem castColumn_fst_indep (numTex : Int) (tex : Int → Tex) (m : Int → Int → Int)
    (cam : Cam) (side x : Int) (z : ZBuf) (b b' : Buf) :
    (castColumn numTex tex m cam side x z b).1 =
    (castColumn numTex tex m cam side x z b').1 := by
  by_cases hcond : (castColumnRes m cam x).fuelLeft = 0 ∨ (castColumnRes m cam x).hit ≠ 1
  · simp only [castColumn, if_pos hcond]
  · simp only [castColumn, if_neg hcond]

/-- The Z-buffer output of the CastRays column loop does not depend on the
render buffer contents. -/
theorem castLoop_fst_indep (numTex : Int) (tex : Int → Tex) (m : Int → Int → Int)
    (cam : Cam) (side : Int) :
    ∀ (n : Nat) (x : Int) (z : ZBuf) (b b' : Buf),
      (castLoop numTex tex m cam side n x (z, b)).1 =
      (castLoop numTex tex m cam side n x (z, b')).1 := by
  intro n
  induction n with
  | zero => intro x z b b'; rfl
  | succ k ih =>
    intro x z b b'
    simp only [castLoop]
    rcases h1 : castColumn numTex tex m cam side x z b with ⟨Z1, B1⟩
    rcases h2 : castColumn numTex tex m cam side x z b' with ⟨Z2, B2⟩
    have hz : Z1 = Z2 := by
      have := castColumn_fst_indep numTex tex m cam side x z b b'
      rw [h1, h2] at this
      exact this
    rw [hz]
    exact ih (x + 1) Z2 B1 B2

/-- The Z-buffer output of CastRays does not depend on the render buffer. -/
theorem CastRays_fst_indep (numTex : Int) (tex : Int → Tex) (m : Int → Int → Int)
    (cam : Cam) (side : Int) (z : ZBuf) (b b' : Buf) :
    (CastRays numTex tex m cam side z b).1 =
    (CastRays numTex tex m cam side z b').1 :=
  castLoop_fst_indep numTex tex m cam side 40 (side * 40) z b b'

/-! ## Claim theorem: frame Z-buffer protocol -/

/-- C7: in RayCast3D_Render the Z-buffer is reset to the FIXED_LARGE
sentinel exactly once, before the first band's CastRays call, and the
frame's final Z-buffer is exactly the composition of the four per-band
CastRays effects applied to that cleared buffer: neither Buffer_Clear nor
Sprites_RenderAll nor the overlay pass touches it (the sprite pass reads
the Z-buffer but returns only a render buffer, as in the source, and the
band equation shows no other writer exists). -/
theorem claim_C7 (numTex : Int) (tex : Int → Tex) (m : Int → Int → Int)
    (cam : Cam) (table : List SpriteSlot) (bg : Int → Int)
    (ov : Int → Buf → Buf) (st : ZBuf × Buf × Buf) :
    (RayCast3D_Render numTex tex m cam table bg ov st).1 =
      castZ numTex tex m cam 3 (castZ numTex tex m cam 2 (castZ numTex tex m cam 1
        (castZ numTex tex m cam 0 (clearZBuffer st.1)))) ∧
    (∀ i, 0 ≤ i → i < 160 → clearZBuffer st.1 i = FIXED_LARGE) := by
  constructor
  · have hb : ∀ (side : Int) (s : ZBuf × Buf × Buf),
        (renderBand numTex tex m cam table bg ov side s).1 =
        castZ numTex tex m cam side s.1 := by
      intro side s
      simp only [renderBand, castZ]
      exact CastRays_fst_indep numTex tex m cam side s.1 (bufClear bg s.2.1) (fun _ => 0)
    simp only [RayCast3D_Render]
    rw [hb 3, hb 2, hb 1, hb 0]
  · intro i h1 h2
    unfold clearZBuffer
    rw [if_pos ⟨h1, h2⟩]

/-- C7 witness: the cleared Z-buffer holds the sentinel at column 5. -/
theorem claim_C7_witness : clearZBuffer zLarge 5 = FIXED_LARGE :=
  (claim_C7 1 texTriv mOpen cam0 tbl0 (fun _ => 0) (fun _ b => b)
    (zLarge, buf0, buf0)).2 5 (by norm_num) (by norm_num)

/-! ## Sprite occlusion analysis -/

/-- A pixel store at buffer column x cannot change a cell of a different
buffer column (columns are the residues mod BUFFER_WIDTH = 40 of the
linear index). -/
theorem Buffer_SetPixel_other (x y color : Int) (b : Buf) (j : Int)
    (h : j % 40 ≠ x) : Buffer_SetPixel x y color b j = b j := by
  unfold Buffer_SetPixel
  split
  · rename_i hin
    have hne : j ≠ (127 - y) * 40 + x := by
      intro he
      apply h
      rw [he]
      omega
    simp only [if_neg hne]
  · rfl

/-- One sprite row leaves every column outside its visible list unchanged. -/
theorem spriteRow_other (img : Int → Int) (w tr y : Int) (texY : Int) (j : Int) :
    ∀ (vis : List (Int × Int)) (buf : Buf), (∀ p ∈ vis, p.1 ≠ j % 40) →
      spriteRow img w tr y vis texY buf j = buf j := by
  intro vis
  induction vis with
  | nil => intro buf _; rfl
  | cons p rest ih =>
    intro buf hvis
    have hstep : (if img (texY * w + p.2) ≠ tr
        then Buffer_SetPixel p.1 y (img (texY * w + p.2)) buf else buf) j = buf j := by
      split
      · exact Buffer_SetPixel_other _ _ _ _ _ (fun he => hvis p (by simp) he.symm)
      · rfl
    have hrest := ih (if img (texY * w + p.2) ≠ tr
        then Buffer_SetPixel p.1 y (img (texY * w + p.2)) buf else buf)
      (fun q hq => hvis q (by simp [hq]))
    calc spriteRow img w tr y (p :: rest) texY buf j
        = spriteRow img w tr y rest texY (if img (texY * w + p.2) ≠ tr
            then Buffer_SetPixel p.1 y (img (texY * w + p.2)) buf else buf) j := rfl
      _ = (if img (texY * w + p.2) ≠ tr
            then Buffer_SetPixel p.1 y (img (texY * w + p.2)) buf else buf) j := hrest
      _ = buf j := hstep

/-- The whole row-major pass leaves every column outside the visible list
unchanged. -/
theorem spriteRows_other (img : Int → Int) (w h tr : Int)
    (vis : List (Int × Int)) (dEY sH : Int) (j : Int)
    (hvis : ∀ p ∈ vis, p.1 ≠ j % 40) :
    ∀ (n : Nat) (y : Int) (buf : Buf),
      spriteRows img w h tr vis dEY sH n y buf j = buf j := by
  intro n
  induction n with
  | zero => intro y buf; rfl
  | succ k ih =>
    intro y buf
    unfold spriteRows
    rw [ih]
    split
    · rfl
    · exact spriteRow_other img w tr y _ j vis buf hvis

/-- Every entry of the visible-column list (beyond the seed accumulator)
records an in-band buffer column that passed the strict Z test at its
screen column. -/
theorem buildVisible_props (zbuf : ZBuf) (tY dSX sSX w sW : Int) :
    ∀ (n : Nat) (stripe : Int) (acc : List (Int × Int)) (p : Int × Int),
      p ∈ buildVisible zbuf tY dSX sSX w sW n stripe acc →
      p ∈ acc ∨ (0 ≤ p.1 ∧ p.1 < 40 ∧ tY < zbuf (sSX + p.1)) := by
  intro n
  induction n with
  | zero => intro stripe acc p hp; exact Or.inl hp
  | succ k ih =>
    intro stripe acc p hp
    simp only [buildVisible] at hp
    split at hp
    · exact Or.inl hp
    · rcases ih (stripe + 1) _ p hp with hacc | hprops
      · split at hacc
        · rename_i hband
          split at hacc
          · rename_i hz
            split at hacc
            · rename_i htex
              rw [List.mem_append] at hacc
              rcases hacc with h | h
              · exact Or.inl h
              · simp at h
                right
                have ht8 : toInt8 (stripe - sSX) = stripe - sSX := by
                  unfold toInt8
                  omega
                rw [h, ht8]
                refine ⟨by omega, by omega, ?_⟩
                have hst : sSX + (stripe - sSX) = stripe := by ring
                rw [hst]
                exact hz.2.2
            · exact Or.inl hacc
          · exact Or.inl hacc
        · exact Or.inl hacc
      · exact Or.inr hprops

/-- buildVisible only appends: the accumulator stays in the result. -/
theorem buildVisible_mono (zbuf : ZBuf) (tY dSX sSX w sW : Int) :
    ∀ (n : Nat) (stripe : Int) (acc : List (Int × Int)) (p : Int × Int),
      p ∈ acc → p ∈ buildVisible zbuf tY dSX sSX w sW n stripe acc := by
  intro n
  induction n with
  | zero => intro stripe acc p hp; exact hp
  | succ k ih =>
    intro stripe acc p hp
    simp only [buildVisible]
    split
    · exact hp
    · apply ih
      split
      · split
        · split
          · exact List.mem_append_left _ hp
          · exact hp
        · exact hp
      · exact hp

/-- Completeness of pass 1: a screen column of the current band that
passes the strict Z test and has an in-range texture column is recorded in
the visible list.  The capacity invariant shows the
MAX_VISIBLE_COLUMNS = 80 cap can never fire: only the at most 40 band
columns are ever recorded. -/
theorem buildVisible_mem (zbuf : ZBuf) (tY dSX sSX w sW : Int) (C : Int)
    (hC1 : sSX ≤ C) (hC2 : C < sSX + 40) (hC3 : 0 ≤ C) (hC4 : C < 160)
    (hz : tY < zbuf C)
    (ht1 : 0 ≤ Int.tdiv ((C - dSX) * w) sW) (ht2 : Int.tdiv ((C - dSX) * w) sW < w) :
    ∀ (n : Nat) (stripe : Int) (acc : List (Int × Int)),
      stripe ≤ C → C < stripe + n →
      (acc.length : Int) + (if stripe ≤ sSX then 40 else sSX + 40 - stripe) ≤ 80 →
      (C - sSX, toInt8 (Int.tdiv ((C - dSX) * w) sW)) ∈
        buildVisible zbuf tY dSX sSX w sW n stripe acc := by
  intro n
  induction n with
  | zero => intro stripe acc h1 h2 _; omega
  | succ k ih =>
    intro stripe acc h1 h2 hinv
    have hstripeLt : stripe < sSX + 40 := by omega
    have hcap : ¬(80 ≤ acc.length) := by
      by_cases hs : stripe ≤ sSX
      · rw [if_pos hs] at hinv
        omega
      · rw [if_neg hs] at hinv
        omega
    simp only [buildVisible, if_neg hcap]
    by_cases hCs : C = stripe
    · subst hCs
      have ht8 : toInt8 (C - sSX) = C - sSX := by
        unfold toInt8
        omega
      rw [if_pos ⟨hC1, hC2⟩, if_pos ⟨hC3, hC4, hz⟩, if_pos ⟨ht1, ht2⟩, ht8]
      exact buildVisible_mono zbuf tY dSX sSX w sW k (C + 1) _ _
        (List.mem_append_right _ (by simp))
    · by_cases hband : sSX ≤ stripe ∧ stripe < sSX + 40
      · rw [if_pos hband]
        refine ih (stripe + 1) _ (by omega) (by omega) ?_
        have hlen : ((if 0 ≤ stripe ∧ stripe < 160 ∧ tY < zbuf stripe then
            if 0 ≤ Int.tdiv ((stripe - dSX) * w) sW ∧
                Int.tdiv ((stripe - dSX) * w) sW < w then
              acc ++ [(toInt8 (stripe - sSX), toInt8 (Int.tdiv ((stripe - dSX) * w) sW))]
            else acc
            else acc).length : Int) ≤ (acc.length : Int) + 1 := by
          split_ifs <;> simp [List.length_append]
        split_ifs at hinv hlen ⊢ <;> omega
      · rw [if_neg hband]
        refine ih (stripe + 1) acc (by omega) (by omega) ?_
        split_ifs at hinv ⊢ <;> omega

/-! ## Claim theorems: sprite occlusion -/

/-- C4 (amended): for a column C of the current band, (1) if the sprite's
camera-space depth transformY exceeds the stored wall distance ZBuffer[C],
rendering the sprite changes no pixel of column C (the strict occlusion
test excludes it); and (2) if transformY is strictly below ZBuffer[C] and
C additionally lies within the sprite's projected horizontal span and the
screen, with an in-range texture column, then C passes the occlusion test
and is recorded in the visible-column list that the rasterisation pass
draws from, the texture column stored narrowed to the int8_t field of the
C VisibleColumn struct.  (The original claim's unconditional converse is
false: a sprite whose projected span misses column C contributes nothing
there even when its depth is below ZBuffer[C]; see the counterexample.) -/
theorem claim_C4 (cam : Cam) (spr : SpriteSlot) (side : Int) (zbuf : ZBuf)
    (buf : Buf) (C : Int) (hband1 : side * 40 ≤ C) (hband2 : C < side * 40 + 40) :
    (zbuf C < sprTransformY cam spr →
      ∀ j, j % 40 = C - side * 40 →
        Sprites_RenderOne cam spr side zbuf buf j = buf j) ∧
    (sprTransformY cam spr < zbuf C → 0 ≤ C → C < 160 →
      sprDrawStartX cam spr ≤ C → C < sprDrawEndX cam spr →
      0 ≤ Int.tdiv ((C - sprDrawStartX cam spr) * spr.width) (sprWidthS cam spr) →
      Int.tdiv ((C - sprDrawStartX cam spr) * spr.width) (sprWidthS cam spr) < spr.width →
      (C - side * 40,
        toInt8 (Int.tdiv ((C - sprDrawStartX cam spr) * spr.width) (sprWidthS cam spr))) ∈
        sprVis cam spr side zbuf) := by
  constructor
  · intro hgt j hj
    have hvis : ∀ p ∈ sprVis cam spr side zbuf, p.1 ≠ j % 40 := by
      intro p hp hne
      rcases buildVisible_props zbuf (sprTransformY cam spr) (sprDrawStartX cam spr)
        (side * 40) spr.width (sprWidthS cam spr) _ _ _ p hp with hin | hprops
      · simp at hin
      · have hC : side * 40 + p.1 = C := by omega
        rw [hC] at hprops
        omega
    simp only [Sprites_RenderOne]
    split_ifs <;> first
      | rfl
      | exact spriteRows_other spr.image spr.width spr.height spr.transparent
          _ _ _ j hvis _ _ buf
  · intro hlt h0 h160 hs1 hs2 ht1 ht2
    unfold sprVis
    apply buildVisible_mem zbuf (sprTransformY cam spr) (sprDrawStartX cam spr)
      (side * 40) spr.width (sprWidthS cam spr) C hband1 hband2 h0 h160 hlt ht1 ht2
    · exact hs1
    · omega
    · split_ifs <;> simp <;> omega

/-- C4 counterexample: the concrete sprite spr0 sits in front of the
default camera with depth transformY = 131070, strictly below the
sentinel wall distance of every column, yet rendering it for band 0
changes no pixel at all (its projected span [48, 112) misses the band's
columns [0, 40)): a sprite at depth < D need not contribute any pixel
change to column C, contradicting the claim as stated. -/
theorem claim_C4_counterexample :
    6554 < sprTransformY cam0 spr0 ∧
    sprTransformY cam0 spr0 < zLarge 0 ∧
    Sprites_RenderOne cam0 spr0 0 zLarge buf0 = buf0 := by
  refine ⟨by decide, by decide, ?_⟩
  rfl

/-- C4 witness: with a zero depth buffer the occluded sprite leaves cell
40 (column 0 of band 0) untouched; with the sentinel depth buffer, band-2
column 80 of the same sprite passes the occlusion test and is recorded in
the visible list. -/
theorem claim_C4_witness :
    Sprites_RenderOne cam0 spr0 0 (fun _ => 0) buf0 40 = buf0 40 ∧
    ((80 - 2 * 40 : Int),
      toInt8 (Int.tdiv ((80 - sprDrawStartX cam0 spr0) * spr0.width) (sprWidthS cam0 spr0))) ∈
      sprVis cam0 spr0 2 zLarge := by
  constructor
  · exact (claim_C4 cam0 spr0 0 (fun _ => 0) buf0 0 (by norm_num) (by norm_num)).1
      (by decide) 40 (by decide)
  · exact (claim_C4 cam0 spr0 2 zLarge buf0 80 (by norm_num) (by norm_num)).2
      (by decide) (by norm_num) (by norm_num) (by decide) (by decide)
      (by decide) (by decide)
